import Mathlib

/-!
Verification of the wiki-markup segmentation engine: the line-based chunk
parser (`linked_list.py`) and the element-extraction pass
(`engine/parse_wiki_markup.py`).  Python strings are modelled as `List Char`,
Python `None`-returning functions as `Option`, and the mutable doubly-linked
list as an arena of nodes addressed by index with `prev`/`next` stored as
optional indices.
-/

namespace LL

/-- One line of text (a Python string containing no newline). -/
abbrev Line := List Char

/-- Python's notion of whitespace as used by `str.strip` and the regex
class `\s` (ASCII fragment, which covers all inputs considered here). -/
def isPySpace (c : Char) : Bool :=
  c == ' ' || c == '\t' || c == '\n' || c == '\r' || c == '\x0b' || c == '\x0c'

/-- Left trim, as in Python `str.lstrip()`. -/
def trimLeft (l : List Char) : List Char := l.dropWhile isPySpace

/-- Right trim, as in Python `str.rstrip()`. -/
def trimRight (l : List Char) : List Char := (l.reverse.dropWhile isPySpace).reverse

/-- Python `str.strip()`. -/
def pyStrip (l : List Char) : List Char := trimRight (trimLeft l)

/-- Python `content.split('\n')`. -/
def splitNL : List Char → List Line
  | [] => [[]]
  | c :: rest =>
    if c = '\n' then [] :: splitNL rest
    else
      match splitNL rest with
      | l :: ls => (c :: l) :: ls
      | [] => [[c]]

/-- Python `'\n'.join(lines)`. -/
def joinNL (ls : List Line) : List Char := List.intercalate ['\n'] ls

/-- Python `s.count(sub)` for a two-character `sub` `[a, b]`:
number of non-overlapping occurrences scanning left to right. -/
def count2 (a b : Char) : List Char → Nat
  | [] => 0
  | [_] => 0
  | x :: y :: rest =>
    if x = a ∧ y = b then 1 + count2 a b rest
    else count2 a b (y :: rest)

/-! ### Pattern matchers (the compiled regexes in `WikiMarkupParser.__init__`,
each used through `pattern.match(line)`, i.e. anchored at the start of the
line; a line never contains a newline character). -/

/-- `table_start`: `^\{\|` matched at the start of the line. -/
def tableStartMatch : Line → Bool
  | '{' :: '|' :: _ => true
  | _ => false

/-- `table_end`: `^\|\}` matched at the start of the line. -/
def tableEndMatch : Line → Bool
  | '|' :: '}' :: _ => true
  | _ => false

/-- `infobox_start`: `\{\{[Ii]nfobox` used through `.match(line)`, hence
anchored at position 0: the line must begin with the double brace and
only the first letter of `infobox` may be capitalised. -/
def infoboxStartMatch (l : Line) : Bool :=
  (('{' :: '{' :: 'I' :: "nfobox".toList).isPrefixOf l) ||
  (('{' :: '{' :: 'i' :: "nfobox".toList).isPrefixOf l)

/-- `list_item`: `^([*#:;]+)\s*(.*)$` — matches iff the line begins with one
of the four list-marker characters. -/
def isListMarker (c : Char) : Bool :=
  c == '*' || c == '#' || c == ':' || c == ';'

def listItemMatch : Line → Bool
  | [] => false
  | c :: _ => isListMarker c

/-- Group 1 of `list_item`: the greedy run of leading marker characters. -/
def listMarkerRun (l : Line) : List Char := l.takeWhile isListMarker

/-- `horizontal_rule`: `^----+\s*$` — at least four dashes, then only
whitespace up to the end of the line. -/
def hrMatch (l : Line) : Bool :=
  let ds := l.takeWhile (· == '-')
  4 ≤ ds.length && (l.drop ds.length).all isPySpace

/-! `heading`: `^(={1,6})\s*(.*?)\s*\1\s*$` through `.match(line)`.
Group 1 greedily takes as many leading `=` as possible (at most 6), then
backtracks; after group 1 the greedy `\s*` takes the maximal whitespace run
(any decomposition that succeeds with less whitespace also succeeds with the
maximum, since `(.*?)` can absorb arbitrary characters); the lazy `(.*?)`
then takes the shortest prefix after which the remainder of the line is
whitespace, `=`×n, whitespace, end-of-line. -/

/-- Does a suffix `s` of the line match `\s*` ++ `=`×n ++ `\s*$`? -/
def headingTail (n : Nat) (s : Line) : Bool :=
  let s' := s.dropWhile isPySpace
  (List.replicate n '=').isPrefixOf s' && (s'.drop n).all isPySpace

/-- The lazy group 2: shortest prefix `T` of `r` such that the rest of `r`
matches `\s*` ++ `=`×n ++ `\s*$`; `none` when no split succeeds. -/
def headingBody (n : Nat) : Line → Option Line
  | [] => if headingTail n [] then some [] else none
  | c :: rest =>
    if headingTail n (c :: rest) then some []
    else (headingBody n rest).map (c :: ·)

/-- Try group 1 = `=`×n: the line must start with n `=` signs and the
remainder (after the greedy `\s*`) must admit a lazy body split. -/
def headingAt (n : Nat) (l : Line) : Option Line :=
  if (List.replicate n '=').isPrefixOf l then
    headingBody n ((l.drop n).dropWhile isPySpace)
  else none

/-- Backtracking over group 1, longest first. -/
def headingTry : Nat → Line → Option (Nat × Line)
  | 0, _ => none
  | n + 1, l =>
    match headingAt (n + 1) l with
    | some t => some (n + 1, t)
    | none => headingTry n l

/-- Full `heading` regex: returns (level, group 2) on success. -/
def headingParse (l : Line) : Option (Nat × Line) :=
  headingTry (min (l.takeWhile (· == '=')).length 6) l

def headingMatch (l : Line) : Bool := (headingParse l).isSome

/-! ### Block extractors (`_extract_table`, `_extract_infobox`,
`_extract_list`, `_extract_paragraph`).  Each loop is written over the
suffix of the line list starting at the loop's current index, carrying the
Python index `i` explicitly; returned indices are integers because the
degenerate cases of `_extract_list` / `_extract_paragraph` return
`start_idx - 1`, which is `-1` at `start_idx = 0`. -/

/-- Loop of `_extract_table`: starting at index `i` (= `start_idx + 1`),
append each line; stop (inclusive) after a `table_end` line, keeping `i`
at that line, or run to the end of input with `i = len(lines)`. -/
def tableLoop (i : Nat) : List Line → (List Line × Nat)
  | [] => ([], i)
  | l :: rest =>
    if tableEndMatch l then ([l], i)
    else
      let r := tableLoop (i + 1) rest
      (l :: r.1, r.2)

/-- `_extract_table(lines, start_idx)`: returns `('\n'.join(table_lines), i)`. -/
def extract_table (lines : List Line) (start_idx : Nat) : List Char × Nat :=
  let r := tableLoop (start_idx + 1) (lines.drop (start_idx + 1))
  (joinNL (lines.getD start_idx [] :: r.1), r.2)

/-- Net brace-depth contribution of one line:
`line.count('{{') - line.count('}}')`. -/
def braceDelta (l : Line) : Int :=
  (count2 '{' '{' l : Int) - (count2 '}' '}' l : Int)

/-- Loop of `_extract_infobox`: while `i < len(lines)` and `brace_depth > 0`,
append the line, add its brace delta, increment `i`. -/
def infoboxLoop (depth : Int) (i : Nat) : List Line → (List Line × Nat)
  | [] => ([], i)
  | l :: rest =>
    if 0 < depth then
      let r := infoboxLoop (depth + braceDelta l) (i + 1) rest
      (l :: r.1, r.2)
    else ([], i)

/-- `_extract_infobox`'s raw span and end index: the first line is always
consumed, the starting depth is the first line's brace delta, and the
returned end index is `i - 1` for the final loop index `i`. -/
def extract_infobox_raw (lines : List Line) (start_idx : Nat) : List Char × Nat :=
  let first := lines.getD start_idx []
  let r := infoboxLoop (braceDelta first) (start_idx + 1) (lines.drop (start_idx + 1))
  (joinNL (first :: r.1), r.2 - 1)

/-- Loop of `_extract_list`: consume while the line matches `list_item`;
the final `i` is the first non-matching index (or `len(lines)`). -/
def listLoop (i : Nat) : List Line → (List Line × Nat)
  | [] => ([], i)
  | l :: rest =>
    if listItemMatch l then
      let r := listLoop (i + 1) rest
      (l :: r.1, r.2)
    else ([], i)

/-- `_extract_list(lines, start_idx)`: returns `('\n'.join(list_lines), i - 1)`. -/
def extract_list (lines : List Line) (start_idx : Nat) : List Char × Int :=
  let r := listLoop start_idx (lines.drop start_idx)
  (joinNL r.1, (r.2 : Int) - 1)

/-- Stop condition of `_extract_paragraph`: empty line, heading, table
start, list item or horizontal rule. -/
def paraStop (l : Line) : Bool :=
  (pyStrip l).isEmpty || headingMatch l || tableStartMatch l ||
    listItemMatch l || hrMatch l

/-- Loop of `_extract_paragraph`: consume while the stop condition fails. -/
def paraLoop (i : Nat) : List Line → (List Line × Nat)
  | [] => ([], i)
  | l :: rest =>
    if paraStop l then ([], i)
    else
      let r := paraLoop (i + 1) rest
      (l :: r.1, r.2)

/-- `_extract_paragraph(lines, start_idx)`: returns `('\n'.join(para_lines), i - 1)`. -/
def extract_paragraph (lines : List Line) (start_idx : Nat) : List Char × Int :=
  let r := paraLoop start_idx (lines.drop start_idx)
  (joinNL r.1, (r.2 : Int) - 1)

/-! ### Field parser (`_parse_infobox_fields`).  The field pattern
`^\|\s*([^=\n]+?)\s*=\s*(.*)$` is applied by `finditer` with
`re.MULTILINE`, so `^` anchors at every line start — but each `\s*`
also matches newlines, so one match may span several physical lines
(e.g. `"| a\n= 1"` yields the field `a -> 1`), and `finditer` resumes
after the end of a match, skipping any line starts a multi-line match
consumed.  The model therefore scans the list of lines as a whole. -/

/-- Skip the greedy `\s*` from a position given as the tail of the
current line plus the following lines; moving to the next line consumes
the separating newline, which is itself whitespace.  Returns the new
position (tail of the line the skip stopped in, plus the lines after it)
and whether any non-newline whitespace character was consumed — the only
characters the engine can backtrack into when the lazy group `[^=\n]+?`
would otherwise be empty. -/
def skipWs : Line → List Line → Line × List Line × Bool
  | l, [] => (l.dropWhile isPySpace, [], !(l.takeWhile isPySpace).isEmpty)
  | l, next :: more =>
    if (l.dropWhile isPySpace).isEmpty then
      let r := skipWs next more
      (r.1, r.2.1, (!(l.takeWhile isPySpace).isEmpty) || r.2.2)
    else (l.dropWhile isPySpace, next :: more, !(l.takeWhile isPySpace).isEmpty)

/-- One attempted `finditer` match at a line beginning with `|`, given
the remainder `s` of that line and the following lines.  After the
leading `\s*` (maximal, possibly spanning lines) the lazy group is a
run of non-`=` characters of the current line (it may not contain a
newline); the match succeeds iff the first non-whitespace character
after that run — possibly on a later line, since the middle `\s*` also
crosses newlines — is `=`.  When the run is empty (the skip stopped at
an `=` or at the end of input) the engine backtracks into the leading
`\s*`; that yields a whitespace-only group, stripped to an empty name,
and succeeds iff some non-newline whitespace was skipped.  The value
group `(.*)$` starts at the first non-whitespace character after the
`=` (the trailing `\s*` is greedy and may again cross newlines) and
runs to the end of that character's line.  Returns the stripped name,
the stripped value, and the lines after the line the match ended on,
where `finditer` resumes. -/
def matchField (s : Line) (rest : List Line) :
    Option (Line × Line × List Line) :=
  let p1 := skipWs s rest
  let r := p1.1.takeWhile (fun c => ¬ c = '=')
  if 1 ≤ r.length then
    let p2 := skipWs (p1.1.drop r.length) p1.2.1
    if p2.1.take 1 = ['='] then
      let p3 := skipWs (p2.1.drop 1) p2.2.1
      some (pyStrip r, pyStrip p3.1, p3.2.1)
    else none
  else
    if p1.1.take 1 = ['='] ∧ p1.2.2 = true then
      let p3 := skipWs (p1.1.drop 1) p1.2.1
      some ([], pyStrip p3.1, p3.2.1)
    else none

/-- Fueled scan of `finditer` over the physical lines: a match is
attempted at every line starting with `|`; on success the pair is
recorded and scanning resumes on the lines after the match, otherwise
on the next line.  Every step consumes at least one line (`matchField`
returns a suffix of the following lines), so fuel `lines.length`
suffices; `fieldScanAux_fuel_stable` below proves the stability. -/
def fieldScanAux : Nat → List Line → List (Line × Line)
  | 0, _ => []
  | _ + 1, [] => []
  | fuel + 1, l :: rest =>
    if l.take 1 = ['|'] then
      match matchField (l.drop 1) rest with
      | some (nm, v, remaining) => (nm, v) :: fieldScanAux fuel remaining
      | none => fieldScanAux fuel rest
    else fieldScanAux fuel rest

/-- All `finditer` matches of the field pattern over the span, in
order: stripped name paired with stripped value. -/
def fieldScan (content : List Char) : List (Line × Line) :=
  fieldScanAux (splitNL content).length (splitNL content)

/-- Python dict insertion `d[k] = v`: update in place if the key exists
(keeping its position), otherwise append. -/
def dictInsert (d : List (Line × Line)) (k v : Line) : List (Line × Line) :=
  if d.any (fun p => p.1 = k) then
    d.map (fun p => if p.1 = k then (k, v) else p)
  else d ++ [(k, v)]

/-- The infobox type extraction `re.match(r'\{\{[Ii]nfobox\s+([^|\n]+)', s)`:
after the literal prefix the greedy `\s+` takes the maximal whitespace run
`w` and the group the following maximal run `g` of non-`|`/newline
characters; when `g` is empty the engine backtracks into `w`, which can
only yield a whitespace-only group (stripped to empty) and requires a
non-newline character at some position ≥ 1 of `w`. -/
def infoboxTypeOf (content : List Char) : Option (List Char) :=
  if infoboxStartMatch content then
    let rest := content.drop 9
    let w := rest.takeWhile isPySpace
    let g := (rest.drop w.length).takeWhile (fun c => ¬ (c = '|' ∨ c = '\n'))
    if 1 ≤ w.length ∧ 1 ≤ g.length then some (pyStrip g)
    else if (w.drop 1).any (fun c => ¬ c = '\n') then some []
    else none
  else none

/-- Result of `_parse_infobox_fields`. -/
structure InfoboxData where
  type : List Char
  fields : List (Line × Line)
deriving Repr, DecidableEq

/-- `_parse_infobox_fields(infobox_content)`: type defaults to `unknown`;
field/value pairs are the `finditer` matches of the field pattern over
the whole content (a match may span lines), values empty after trimming
are dropped, and duplicate field names overwrite. -/
def parse_infobox_fields (content : List Char) : InfoboxData :=
  { type := (infoboxTypeOf content).getD ("unknown".toList)
    fields :=
      ((fieldScan content).filter (fun p => ¬ p.2 = [])).foldl
        (fun d p => dictInsert d p.1 p.2) [] }

/-- `_extract_infobox(lines, start_idx)` returns
`(raw_content, end_idx, parsed_data)`. -/
def extract_infobox (lines : List Line) (start_idx : Nat) :
    List Char × Nat × InfoboxData :=
  let r := extract_infobox_raw lines start_idx
  (r.1, r.2, parse_infobox_fields r.1)

/-! ### Chunk sequencer (`parse_string`) and the linked list
(`WikiLinkedList`).  Chunk objects are stored in an arena; the mutable
`prev`/`next` object references become optional arena indices. -/

inductive ChunkType where
  | heading | infobox | table | list | horizontal_rule | paragraph
deriving Repr, DecidableEq

/-- `ContentChunk` with the metadata fields the parser actually sets. -/
structure Chunk where
  chunk_type : ChunkType
  content : List Char
  level : Option Nat := none
  infobox_type : List Char := []
  fields : List (Line × Line) := []
  row_count : Nat := 0
  list_type : Option Char := none
deriving Repr, DecidableEq

instance : Inhabited Chunk := ⟨{ chunk_type := .paragraph, content := [] }⟩

/-- One chunk in the arena with its neighbour links. -/
structure Node where
  chunk : Chunk
  prev : Option Nat := none
  next : Option Nat := none
deriving Repr, DecidableEq

instance : Inhabited Node := ⟨{ chunk := default }⟩

structure WikiLinkedList where
  nodes : List Node
  head : Option Nat
  tail : Option Nat
deriving Repr, DecidableEq

def WikiLinkedList.empty : WikiLinkedList := ⟨[], none, none⟩

/-- `WikiLinkedList.append(chunk)`: if the list is empty the new node is
both head and tail; otherwise the current tail's `next` is set to the new
node, whose `prev` is the old tail, and the tail pointer advances. -/
def WikiLinkedList.append (L : WikiLinkedList) (c : Chunk) : WikiLinkedList :=
  match L.head with
  | none => ⟨[{ chunk := c }], some 0, some 0⟩
  | some _ =>
    let t := L.tail.getD 0
    let n := L.nodes.length
    ⟨(L.nodes.set t { L.nodes.getD t default with next := some n }) ++
        [{ chunk := c, prev := some t }],
      L.head, some n⟩

/-- One iteration of the dispatch loop of `parse_string`, at line index
`i`: returns the chunk appended in this iteration (if any) and the next
value of `i`.  The branch order is that of the Python `while` body:
heading, infobox, table start, list item, horizontal rule, blank line,
paragraph. -/
def stepParse (lines : List Line) (i : Nat) : Option Chunk × Nat :=
  let line := lines.getD i []
  match headingParse line with
  | some lt =>
    (some { chunk_type := .heading, content := pyStrip lt.2, level := some lt.1 }, i + 1)
  | none =>
    if infoboxStartMatch line then
      let r := extract_infobox lines i
      (some { chunk_type := .infobox, content := r.1,
              infobox_type := r.2.2.type, fields := r.2.2.fields }, r.2.1 + 1)
    else if tableStartMatch line then
      let r := extract_table lines i
      (some { chunk_type := .table, content := r.1,
              row_count := count2 '|' '-' r.1 }, r.2 + 1)
    else if listItemMatch line then
      let r := extract_list lines i
      (some { chunk_type := .list, content := r.1,
              level := some (listMarkerRun line).length,
              list_type := (listMarkerRun line).head? }, (r.2 + 1).toNat)
    else if hrMatch line then
      (some { chunk_type := .horizontal_rule, content := "----".toList }, i + 1)
    else if (pyStrip line).isEmpty then
      (none, i + 1)
    else
      let r := extract_paragraph lines i
      ((if (pyStrip r.1).isEmpty then none
        else some { chunk_type := .paragraph, content := r.1 }), (r.2 + 1).toNat)

/-- The dispatch loop, driven by explicit fuel; `parseTermination` below
shows that fuel `lines.length` always suffices, because each iteration
strictly increases `i`. -/
def parseLoop (lines : List Line) : Nat → Nat → List Chunk
  | 0, _ => []
  | fuel + 1, i =>
    if i < lines.length then
      let r := stepParse lines i
      (match r.1 with | some c => [c] | none => []) ++ parseLoop lines fuel r.2
    else []

/-- The ordered chunk sequence produced by `parse_string`. -/
def parseChunks (content : List Char) : List Chunk :=
  let lines := splitNL content
  parseLoop lines lines.length 0

/-- `WikiMarkupParser.parse_string`: every extracted chunk is appended to
the linked list in order. -/
def parse_string (content : List Char) : WikiLinkedList :=
  (parseChunks content).foldl WikiLinkedList.append WikiLinkedList.empty

/-! ### Progress of the dispatch loop. -/

theorem tableLoop_ge (ls : List Line) : ∀ i, i ≤ (tableLoop i ls).2 := by
  induction ls with
  | nil => intro i; simp [tableLoop]
  | cons l rest ih =>
    intro i
    by_cases h : tableEndMatch l
    · simp [tableLoop, h]
    · simpa [tableLoop, h] using Nat.le_trans (Nat.le_succ i) (ih (i + 1))

theorem infoboxLoop_ge (ls : List Line) : ∀ d i, i ≤ (infoboxLoop d i ls).2 := by
  induction ls with
  | nil => intro d i; simp [infoboxLoop]
  | cons l rest ih =>
    intro d i
    by_cases h : (0 : Int) < d
    · simpa [infoboxLoop, h] using
        Nat.le_trans (Nat.le_succ i) (ih (d + braceDelta l) (i + 1))
    · simp [infoboxLoop, h]

theorem listLoop_ge (ls : List Line) : ∀ i, i ≤ (listLoop i ls).2 := by
  induction ls with
  | nil => intro i; simp [listLoop]
  | cons l rest ih =>
    intro i
    by_cases h : listItemMatch l
    · simpa [listLoop, h] using Nat.le_trans (Nat.le_succ i) (ih (i + 1))
    · simp [listLoop, h]

theorem paraLoop_ge (ls : List Line) : ∀ i, i ≤ (paraLoop i ls).2 := by
  induction ls with
  | nil => intro i; simp [paraLoop]
  | cons l rest ih =>
    intro i
    by_cases h : paraStop l
    · simp [paraLoop, h]
    · simpa [paraLoop, h] using Nat.le_trans (Nat.le_succ i) (ih (i + 1))

theorem listLoop_cons_ge (l : Line) (rest : List Line) (i : Nat)
    (h : listItemMatch l) : i + 1 ≤ (listLoop i (l :: rest)).2 := by
  simpa [listLoop, h] using listLoop_ge rest (i + 1)

theorem paraLoop_cons_ge (l : Line) (rest : List Line) (i : Nat)
    (h : ¬ paraStop l) : i + 1 ≤ (paraLoop i (l :: rest)).2 := by
  simpa [paraLoop, h] using paraLoop_ge rest (i + 1)

theorem drop_cons_of_lt (lines : List Line) (i : Nat) (h : i < lines.length) :
    lines.drop i = lines.getD i [] :: lines.drop (i + 1) := by
  rw [List.getD_eq_getElem _ _ h]
  exact List.drop_eq_getElem_cons h

/-- Progress of the paragraph fallback branch: its starting line has
already failed every stop condition of `_extract_paragraph`, so at least
one line is consumed. -/
theorem para_branch_progress (lines : List Line) (i : Nat)
    (h : i < lines.length)
    (hp : headingParse (lines.getD i []) = none)
    (hts : ¬ tableStartMatch (lines.getD i []) = true)
    (hli : ¬ listItemMatch (lines.getD i []) = true)
    (hhr : ¬ hrMatch (lines.getD i []) = true)
    (hbl : ¬ (pyStrip (lines.getD i [])).isEmpty = true) :
    i + 1 ≤ ((extract_paragraph lines i).2 + 1).toNat := by
  have hstop : ¬ paraStop (lines.getD i []) := by
    simp only [paraStop, headingMatch, Bool.or_eq_true, not_or]
    refine ⟨⟨⟨⟨?_, ?_⟩, ?_⟩, ?_⟩, ?_⟩
    · exact hbl
    · rw [hp]; simp
    · simpa using hts
    · simpa using hli
    · simpa using hhr
  have h1 : i + 1 ≤ (paraLoop i (lines.drop i)).2 := by
    rw [drop_cons_of_lt lines i h]
    exact paraLoop_cons_ge _ _ _ hstop
  dsimp only [extract_paragraph]
  omega

/-- Each iteration of the dispatch loop strictly increases the line
index. -/
theorem stepParse_progress (lines : List Line) (i : Nat)
    (h : i < lines.length) : i + 1 ≤ (stepParse lines i).2 := by
  unfold stepParse
  dsimp only
  split
  · exact Nat.le_refl _
  · rename_i hp
    split_ifs with hib hts hli hhr hbl hpe
    · have h1 := infoboxLoop_ge (lines.drop (i + 1))
        (braceDelta (lines.getD i [])) (i + 1)
      dsimp only [extract_infobox, extract_infobox_raw]
      omega
    · have h1 := tableLoop_ge (lines.drop (i + 1)) (i + 1)
      dsimp only [extract_table]
      omega
    · have h1 : i + 1 ≤ (listLoop i (lines.drop i)).2 := by
        rw [drop_cons_of_lt lines i h]
        exact listLoop_cons_ge _ _ _ hli
      dsimp only [extract_list]
      omega
    · exact Nat.le_refl _
    · exact Nat.le_refl _
    · exact para_branch_progress lines i h hp hts hli hhr hbl
    · exact para_branch_progress lines i h hp hts hli hhr hbl

theorem parseLoop_succ (lines : List Line) (fuel i : Nat) :
    parseLoop lines (fuel + 1) i =
      if i < lines.length then
        (match (stepParse lines i).1 with | some c => [c] | none => []) ++
          parseLoop lines fuel (stepParse lines i).2
      else [] := rfl

/-- C10: the dispatch loop of `parse_string` terminates — every iteration
advances the index by at least one, and consequently the fueled loop is
already stable at fuel `lines.length - i`. -/
theorem parseTermination (lines : List Line) :
    (∀ i, i < lines.length → i + 1 ≤ (stepParse lines i).2) ∧
    (∀ fuel i, lines.length ≤ i + fuel →
      parseLoop lines fuel i = parseLoop lines (fuel + 1) i) := by
  constructor
  · exact fun i h => stepParse_progress lines i h
  · intro fuel
    induction fuel with
    | zero =>
      intro i hle
      have hni : ¬ i < lines.length := by omega
      rw [parseLoop_succ]
      simp [parseLoop, hni]
    | succ f ih =>
      intro i hle
      by_cases h : i < lines.length
      · have hprog := stepParse_progress lines i h
        have hnext : lines.length ≤ (stepParse lines i).2 + f := by omega
        rw [parseLoop_succ, parseLoop_succ, if_pos h, if_pos h, ih _ hnext]
      · rw [parseLoop_succ, parseLoop_succ, if_neg h, if_neg h]

/-- Concrete instance of loop progress at a one-line input. -/
theorem parseTermination_witness : 0 + 1 ≤ (stepParse [['a']] 0).2 :=
  (parseTermination [['a']]).1 0 (by decide)

/-! ### Chain shape of the linked list built by repeated `append`. -/

theorem getD_set_self (l : List Node) (t : Nat) (x : Node) (h : t < l.length) :
    (l.set t x).getD t default = x := by
  induction l generalizing t with
  | nil => simp at h
  | cons a rest ih =>
    cases t with
    | zero => rfl
    | succ t =>
      simp only [List.set, List.getD_cons_succ]
      exact ih t (by simpa using h)

theorem getD_set_ne (l : List Node) (t k : Nat) (x : Node) (h : ¬ k = t) :
    (l.set t x).getD k default = l.getD k default := by
  induction l generalizing t k with
  | nil => simp [List.set]
  | cons a rest ih =>
    cases t with
    | zero =>
      cases k with
      | zero => exact absurd rfl h
      | succ k => rfl
    | succ t =>
      cases k with
      | zero => rfl
      | succ k =>
        simp only [List.set, List.getD_cons_succ]
        exact ih t k (fun hk => h (by omega))

/-- The shape of the linked list built by folding `append` over a chunk
sequence, starting from the empty list: nodes sit in insertion order,
`prev`/`next` are the adjacent indices, head is index 0 and tail the last
index. -/
theorem build_shape (cs : List Chunk) :
    (cs.foldl WikiLinkedList.append WikiLinkedList.empty).nodes.length = cs.length ∧
    (cs.foldl WikiLinkedList.append WikiLinkedList.empty).head =
      (if cs.length = 0 then none else some 0) ∧
    (cs.foldl WikiLinkedList.append WikiLinkedList.empty).tail =
      (if cs.length = 0 then none else some (cs.length - 1)) ∧
    (∀ k, ((cs.foldl WikiLinkedList.append WikiLinkedList.empty).nodes.getD k
        default).prev = (if k = 0 ∨ cs.length ≤ k then none else some (k - 1))) ∧
    (∀ k, ((cs.foldl WikiLinkedList.append WikiLinkedList.empty).nodes.getD k
        default).next = (if k + 1 < cs.length then some (k + 1) else none)) := by
  induction cs using List.reverseRecOn with
  | nil =>
    refine ⟨rfl, rfl, rfl, fun k => ?_, fun k => ?_⟩ <;>
      simp [WikiLinkedList.empty, List.getD] <;> rfl
  | append_singleton cs c ih =>
    obtain ⟨hlen, hhead, htail, hprev, hnext⟩ := ih
    rw [List.foldl_append] at *
    set L := cs.foldl WikiLinkedList.append WikiLinkedList.empty with hL
    simp only [List.foldl_cons, List.foldl_nil, List.length_append,
      List.length_singleton]
    by_cases hcs : cs.length = 0
    · have hnodes : L.nodes = [] := List.length_eq_zero.mp (by omega)
      have hh : L.head = none := by rw [hhead, if_pos hcs]
      have happ : L.append c = ⟨[{ chunk := c }], some 0, some 0⟩ := by
        rw [WikiLinkedList.append, hh]
      rw [happ, hcs]
      refine ⟨rfl, rfl, rfl, fun k => ?_, fun k => ?_⟩
      · cases k with
        | zero => rw [if_pos (Or.inl rfl)]; rfl
        | succ n =>
          rw [List.getD_eq_default _ _ (by simp), if_pos (by omega)]
          rfl
      · cases k with
        | zero => rw [if_neg (by omega)]; rfl
        | succ n =>
          rw [List.getD_eq_default _ _ (by simp), if_neg (by omega)]
          rfl
    · have hpos : 0 < cs.length := Nat.pos_of_ne_zero hcs
      have hh : L.head = some 0 := by rw [hhead, if_neg hcs]
      have ht : L.tail = some (cs.length - 1) := by rw [htail, if_neg hcs]
      have happ : L.append c =
          ⟨(L.nodes.set (cs.length - 1)
              { L.nodes.getD (cs.length - 1) default with next := some cs.length }) ++
            [{ chunk := c, prev := some (cs.length - 1) }], some 0, some cs.length⟩ := by
        rw [WikiLinkedList.append, hh, ht]
        simp [hlen]
      rw [happ]
      have hsetlen : (L.nodes.set (cs.length - 1)
          { L.nodes.getD (cs.length - 1) default with
              next := some cs.length }).length = cs.length := by
        simp [hlen]
      refine ⟨by simp [hsetlen, hlen], by simp [hcs], by simp, fun k => ?_, fun k => ?_⟩
      · rcases Nat.lt_trichotomy k cs.length with hk | hk | hk
        · rw [List.getD_append _ _ _ _ (by omega)]
          by_cases hkt : k = cs.length - 1
          · subst hkt
            rw [getD_set_self _ _ _ (by omega)]
            dsimp only
            rw [hprev (cs.length - 1)]
            split_ifs with h1 h2 h2 <;> first | rfl | omega
          · rw [getD_set_ne _ _ _ _ hkt, hprev k]
            split_ifs with h1 h2 h2 <;> first | rfl | omega
        · subst hk
          rw [List.getD_append_right _ _ _ _ (le_of_eq hsetlen)]
          simp only [hsetlen, Nat.sub_self, List.getD_cons_zero]
          split_ifs with h1 <;> first | rfl | omega
        · rw [List.getD_eq_default _ _ (by simp only [List.length_append,
            List.length_singleton, hsetlen]; omega)]
          split_ifs with h1 <;> first | rfl | omega
      · rcases Nat.lt_trichotomy k cs.length with hk | hk | hk
        · rw [List.getD_append _ _ _ _ (by omega)]
          by_cases hkt : k = cs.length - 1
          · subst hkt
            rw [getD_set_self _ _ _ (by omega)]
            dsimp only
            split_ifs with h1
            · rw [show cs.length - 1 + 1 = cs.length by omega]
            · omega
          · rw [getD_set_ne _ _ _ _ hkt, hnext k]
            split_ifs with h1 h2 h2 <;> first | rfl | omega
        · subst hk
          rw [List.getD_append_right _ _ _ _ (le_of_eq hsetlen)]
          simp only [hsetlen, Nat.sub_self, List.getD_cons_zero]
          split_ifs with h1 <;> first | rfl | omega
        · rw [List.getD_eq_default _ _ (by simp only [List.length_append,
            List.length_singleton, hsetlen]; omega)]
          split_ifs with h1 <;> first | rfl | omega

/-- Forward traversal (`__iter__`-style): follow `next` pointers from a
starting node, recording visited indices; fuel bounds the walk. -/
def walkNext (L : WikiLinkedList) : Nat → Option Nat → List Nat
  | 0, _ => []
  | _ + 1, none => []
  | f + 1, some k => k :: walkNext L f ((L.nodes.getD k default).next)

/-- Backward traversal: follow `prev` pointers. -/
def walkPrev (L : WikiLinkedList) : Nat → Option Nat → List Nat
  | 0, _ => []
  | _ + 1, none => []
  | f + 1, some k => k :: walkPrev L f ((L.nodes.getD k default).prev)

theorem walkNext_none (L : WikiLinkedList) (f : Nat) : walkNext L f none = [] := by
  cases f <;> rfl

theorem walkPrev_none (L : WikiLinkedList) (f : Nat) : walkPrev L f none = [] := by
  cases f <;> rfl

theorem walkNext_range (L : WikiLinkedList) (n : Nat)
    (hnext : ∀ k, ((L.nodes.getD k default).next =
      if k + 1 < n then some (k + 1) else none)) :
    ∀ f k, k < n → n ≤ k + f → walkNext L f (some k) = List.range' k (n - k) := by
  intro f
  induction f with
  | zero => intro k hk hle; omega
  | succ f ih =>
    intro k hk hle
    rw [walkNext, hnext k]
    by_cases h1 : k + 1 < n
    · rw [if_pos h1, ih (k + 1) h1 (by omega),
        show n - k = (n - (k + 1)) + 1 by omega, List.range'_succ]
    · rw [if_neg h1, walkNext_none, show n - k = 1 by omega]
      rfl

theorem walkPrev_desc (L : WikiLinkedList) (n : Nat)
    (hprev : ∀ k, ((L.nodes.getD k default).prev =
      if k = 0 ∨ n ≤ k then none else some (k - 1))) :
    ∀ f k, k < n → k + 1 ≤ f → walkPrev L f (some k) = (List.range (k + 1)).reverse := by
  intro f
  induction f with
  | zero => intro k hk hle; omega
  | succ f ih =>
    intro k hk hle
    rw [walkPrev, hprev k]
    cases k with
    | zero => rw [if_pos (Or.inl rfl), walkPrev_none]; rfl
    | succ m =>
      rw [if_neg (by omega), show m + 1 - 1 = m from rfl,
        ih m (by omega) (by omega), List.range_succ]
      simp [List.range_succ, List.reverse_append]

/-- C1: for every input string, the chunk sequence built by `parse_string`
forms a single consistent doubly-linked chain: `a.next = b` iff
`b.prev = a`; when non-empty there is exactly one node with `prev = none`
(index 0) and exactly one with `next = none` (the last index); and the
forward walk from the head visits exactly the reverse of the backward walk
from the tail. -/
theorem parse_string_chain (content : List Char) :
    (∀ a b, a < (parse_string content).nodes.length →
        b < (parse_string content).nodes.length →
        ((((parse_string content).nodes.getD a default).next = some b) ↔
          (((parse_string content).nodes.getD b default).prev = some a))) ∧
    (0 < (parse_string content).nodes.length →
      ((List.range (parse_string content).nodes.length).filter
          (fun k => decide (((parse_string content).nodes.getD k default).prev = none))
          = [0]) ∧
      ((List.range (parse_string content).nodes.length).filter
          (fun k => decide (((parse_string content).nodes.getD k default).next = none))
          = [(parse_string content).nodes.length - 1])) ∧
    walkNext (parse_string content) (parse_string content).nodes.length
        (parse_string content).head =
      (walkPrev (parse_string content) (parse_string content).nodes.length
        (parse_string content).tail).reverse := by
  obtain ⟨hlen, hhead, htail, hprev, hnext⟩ := build_shape (parseChunks content)
  have hps : parse_string content =
      (parseChunks content).foldl WikiLinkedList.append WikiLinkedList.empty := rfl
  rw [hps, hlen]
  set n := (parseChunks content).length with hn
  refine ⟨?_, ?_, ?_⟩
  · intro a b ha hb
    rw [hnext a, hprev b]
    split_ifs with h1 h2 h2 <;> simp <;> omega
  · intro hpos
    constructor
    · obtain ⟨m, hm⟩ : ∃ m, n = m + 1 := ⟨n - 1, by omega⟩
      rw [hm, List.range_succ_eq_map]
      rw [List.filter_cons_of_pos (by rw [hprev 0]; simp)]
      have hrest : (((List.range m).map Nat.succ).filter
          (fun k => decide ((((parseChunks content).foldl WikiLinkedList.append
            WikiLinkedList.empty).nodes.getD k default).prev = none))) = [] := by
        rw [List.filter_eq_nil_iff]
        intro a hma
        obtain ⟨j, hj, rfl⟩ := List.mem_map.mp hma
        have hjm : j < m := List.mem_range.mp hj
        rw [hprev (j + 1), if_neg (by omega)]
        simp
      rw [hrest]
    · obtain ⟨m, hm⟩ : ∃ m, n = m + 1 := ⟨n - 1, by omega⟩
      rw [hm, List.range_succ, List.filter_append]
      have hrest : ((List.range m).filter
          (fun k => decide ((((parseChunks content).foldl WikiLinkedList.append
            WikiLinkedList.empty).nodes.getD k default).next = none))) = [] := by
        rw [List.filter_eq_nil_iff]
        intro a hma
        have ham : a < m := List.mem_range.mp hma
        rw [hnext a, if_pos (by omega)]
        simp
      rw [hrest, List.filter_cons_of_pos (by rw [hnext m, if_neg (by omega)]; simp)]
      simp
  · by_cases hz : n = 0
    · rw [hhead, htail, if_pos hz, if_pos hz, hz, walkNext_none, walkPrev_none]
      rfl
    · rw [hhead, htail, if_neg hz, if_neg hz]
      rw [walkNext_range _ n hnext n 0 (by omega) (by omega)]
      rw [walkPrev_desc _ n hprev n (n - 1) (by omega) (by omega)]
      rw [List.reverse_reverse, show n - 1 + 1 = n by omega, Nat.sub_zero,
        List.range_eq_range']

/-- Concrete instance of the chain invariant on the two-paragraph input
`"a\n\nb"`. -/
theorem parse_string_chain_witness :
    ((((parse_string ('a' :: '\n' :: '\n' :: ['b'])).nodes.getD 0 default).next =
        some 1) ↔
      (((parse_string ('a' :: '\n' :: '\n' :: ['b'])).nodes.getD 1 default).prev =
        some 0)) ∧
    ((List.range (parse_string ('a' :: '\n' :: '\n' :: ['b'])).nodes.length).filter
        (fun k => decide (((parse_string ('a' :: '\n' :: '\n' :: ['b'])).nodes.getD k
          default).prev = none)) = [0]) :=
  ⟨(parse_string_chain ('a' :: '\n' :: '\n' :: ['b'])).1 0 1 (by decide) (by decide),
    ((parse_string_chain ('a' :: '\n' :: '\n' :: ['b'])).2.1 (by decide)).1⟩

/-! ### The consumed span of `_extract_infobox` (C2). -/

/-- Written from the claim's words (strict reading): scan from `start`,
adding each line's brace delta to a running depth; report the first index
whose running depth is exactly zero. -/
def specDepthScanExact (acc : Int) (k : Nat) : List Line → Option Nat
  | [] => none
  | l :: rest =>
    let acc' := acc + braceDelta l
    if acc' = 0 then some k else specDepthScanExact acc' (k + 1) rest

/-- Written from the claim's words (strict reading): the last consumed
index — the first index at which the running depth reaches exactly zero,
or the last line of input if it never does. -/
def specInfoboxEndExact (lines : List Line) (start : Nat) : Nat :=
  (specDepthScanExact 0 start (lines.drop start)).getD (lines.length - 1)

/-- The amended reading: first index at which the running depth reaches
zero **or drops below it** (the loop guard is `brace_depth > 0`). -/
def specDepthScan (acc : Int) (k : Nat) : List Line → Option Nat
  | [] => none
  | l :: rest =>
    let acc' := acc + braceDelta l
    if acc' ≤ 0 then some k else specDepthScan acc' (k + 1) rest

/-- Amended last consumed index of the infobox extractor. -/
def specInfoboxEnd (lines : List Line) (start : Nat) : Nat :=
  (specDepthScan 0 start (lines.drop start)).getD (lines.length - 1)

/-- C2 counterexample: on `["{{Infobox a", "}}}}", "tail"]` the running
depth goes 1, −1 and never equals zero, so the strict reading of the claim
says the whole input is consumed; the code stops at line 1 because the
depth fell below zero. -/
theorem extract_infobox_zero_counterexample :
    specInfoboxEndExact
        [('{' :: '{' :: "Infobox a".toList), List.replicate 4 '}', "tail".toList] 0 = 2 ∧
    infoboxStartMatch ('{' :: '{' :: "Infobox a".toList) = true ∧
    (extract_infobox
        [('{' :: '{' :: "Infobox a".toList), List.replicate 4 '}', "tail".toList] 0).1 =
      joinNL [('{' :: '{' :: "Infobox a".toList), List.replicate 4 '}'] ∧
    ¬ (extract_infobox
        [('{' :: '{' :: "Infobox a".toList), List.replicate 4 '}', "tail".toList] 0).1 =
      joinNL (([('{' :: '{' :: "Infobox a".toList), List.replicate 4 '}',
        "tail".toList].drop 0).take (2 + 1 - 0)) := by decide

/-- Number of lines the infobox loop consumes after the first line. -/
def cntConsume (d : Int) : List Line → Nat
  | [] => 0
  | l :: rest => if 0 < d then cntConsume (d + braceDelta l) rest + 1 else 0

theorem cntConsume_cons (d : Int) (l : Line) (rest : List Line) :
    cntConsume d (l :: rest) =
      if 0 < d then cntConsume (d + braceDelta l) rest + 1 else 0 := rfl

theorem infoboxLoop_cons (d : Int) (i : Nat) (l : Line) (rest : List Line) :
    infoboxLoop d i (l :: rest) =
      if 0 < d then
        ((l :: (infoboxLoop (d + braceDelta l) (i + 1) rest).1),
          (infoboxLoop (d + braceDelta l) (i + 1) rest).2)
      else ([], i) := by
  rw [infoboxLoop]

theorem cntConsume_nonpos (d : Int) (ls : List Line) (h : d ≤ 0) :
    cntConsume d ls = 0 := by
  cases ls with
  | nil => rfl
  | cons l rest => rw [cntConsume_cons, if_neg (by omega)]

theorem specDepthScan_cons (acc : Int) (k : Nat) (l : Line) (rest : List Line) :
    specDepthScan acc k (l :: rest) =
      if acc + braceDelta l ≤ 0 then some k
      else specDepthScan (acc + braceDelta l) (k + 1) rest := rfl

theorem infoboxLoop_spec (ls : List Line) :
    ∀ d i, infoboxLoop d i ls = (ls.take (cntConsume d ls), i + cntConsume d ls) := by
  induction ls with
  | nil => intro d i; simp [infoboxLoop, cntConsume]
  | cons l rest ih =>
    intro d i
    by_cases h : (0 : Int) < d
    · rw [infoboxLoop_cons, if_pos h, ih (d + braceDelta l) (i + 1),
        cntConsume_cons, if_pos h]
      refine Prod.ext ?_ ?_
      · simp
      · simp only
        omega
    · rw [infoboxLoop_cons, if_neg h, cntConsume_cons, if_neg h]
      simp

theorem specDepthScan_getD (ls : List Line) :
    ∀ acc k, 0 < acc →
      (specDepthScan acc (k + 1) ls).getD (k + 1 + ls.length - 1) =
        k + cntConsume acc ls := by
  induction ls with
  | nil => intro acc k h; simp [specDepthScan, cntConsume]
  | cons l rest ih =>
    intro acc k h
    rw [specDepthScan_cons, cntConsume_cons, if_pos h]
    by_cases h' : acc + braceDelta l ≤ 0
    · rw [if_pos h', cntConsume_nonpos _ _ h']
      simp
    · rw [if_neg h']
      have hih := ih (acc + braceDelta l) (k + 1) (by omega)
      rw [show k + 1 + (l :: rest).length - 1 = k + 1 + 1 + rest.length - 1 by
        simp only [List.length_cons]; omega]
      rw [hih]
      omega

/-- C2 amended: `_extract_infobox` consumes exactly the lines from
`start` through the first index at which the running depth (initialised to
the first line's `{{`/`}}` count difference and updated per line by the
same raw count) reaches zero or below, or through the last line if the
depth never drops to zero or below; the returned content is the
newline-join of exactly those lines, and the returned end index is that
last consumed index. -/
theorem extract_infobox_consumed_span (lines : List Line) (start : Nat)
    (h : start < lines.length)
    (_hm : infoboxStartMatch (lines.getD start []) = true) :
    (extract_infobox lines start).1 =
      joinNL ((lines.drop start).take (specInfoboxEnd lines start + 1 - start)) ∧
    (extract_infobox lines start).2.1 = specInfoboxEnd lines start := by
  have hdrop : lines.drop start = lines.getD start [] :: lines.drop (start + 1) :=
    drop_cons_of_lt lines start h
  have hlen : lines.length = start + 1 + (lines.drop (start + 1)).length := by
    simp [List.length_drop]; omega
  set first := lines.getD start [] with hfirst
  set rest := lines.drop (start + 1) with hrest
  have hloop := infoboxLoop_spec rest (braceDelta first) (start + 1)
  have hend : specInfoboxEnd lines start = start + cntConsume (braceDelta first) rest := by
    rw [specInfoboxEnd, hdrop]
    by_cases h0 : braceDelta first ≤ 0
    · have hc : cntConsume (braceDelta first) rest = 0 := by
        cases rest with
        | nil => rfl
        | cons x xs => simp [cntConsume]; omega
      simp [specDepthScan, h0, hc]
    · simp only [specDepthScan, Int.zero_add, if_neg h0]
      rw [show lines.length - 1 = start + 1 + rest.length - 1 by omega]
      exact specDepthScan_getD rest (braceDelta first) start (by omega)
  constructor
  · rw [extract_infobox, extract_infobox_raw]
    simp only [← hfirst, ← hrest, hloop, hend, hdrop]
    rw [show start + cntConsume (braceDelta first) rest + 1 - start =
      cntConsume (braceDelta first) rest + 1 by omega]
    rfl
  · rw [extract_infobox, extract_infobox_raw]
    simp only [← hfirst, ← hrest, hloop, hend]
    omega

/-- Witness for the amended C2 on a nested-template infobox. -/
theorem extract_infobox_consumed_span_witness :
    (extract_infobox
        [('{' :: '{' :: "Infobox a".toList),
          ("| x = ".toList ++ '{' :: '{' :: "URL|e.com".toList),
          ('}' :: ['}']), ('}' :: ['}']), "after".toList] 0).1 =
      joinNL (([('{' :: '{' :: "Infobox a".toList),
          ("| x = ".toList ++ '{' :: '{' :: "URL|e.com".toList),
          ('}' :: ['}']), ('}' :: ['}']), "after".toList].drop 0).take
        (specInfoboxEnd [('{' :: '{' :: "Infobox a".toList),
          ("| x = ".toList ++ '{' :: '{' :: "URL|e.com".toList),
          ('}' :: ['}']), ('}' :: ['}']), "after".toList] 0 + 1 - 0)) :=
  (extract_infobox_consumed_span
    [('{' :: '{' :: "Infobox a".toList),
      ("| x = ".toList ++ '{' :: '{' :: "URL|e.com".toList),
      ('}' :: ['}']), ('}' :: ['}']), "after".toList] 0
    (by decide) (by decide)).1

/-! ### End-index semantics of the block extractors (C3). -/

theorem listLoop_cons (i : Nat) (l : Line) (rest : List Line) :
    listLoop i (l :: rest) =
      if listItemMatch l then
        (l :: (listLoop (i + 1) rest).1, (listLoop (i + 1) rest).2)
      else ([], i) := by
  rw [listLoop]

theorem paraLoop_cons (i : Nat) (l : Line) (rest : List Line) :
    paraLoop i (l :: rest) =
      if paraStop l then ([], i)
      else (l :: (paraLoop (i + 1) rest).1, (paraLoop (i + 1) rest).2) := by
  rw [paraLoop]

theorem tableLoop_cons (i : Nat) (l : Line) (rest : List Line) :
    tableLoop i (l :: rest) =
      if tableEndMatch l then ([l], i)
      else (l :: (tableLoop (i + 1) rest).1, (tableLoop (i + 1) rest).2) := by
  rw [tableLoop]

theorem listLoop_spec (ls : List Line) :
    ∀ i, listLoop i ls =
      (ls.takeWhile listItemMatch, i + (ls.takeWhile listItemMatch).length) := by
  induction ls with
  | nil => intro i; simp [listLoop]
  | cons l rest ih =>
    intro i
    by_cases h : listItemMatch l
    · rw [listLoop_cons, if_pos h, ih (i + 1), List.takeWhile_cons_of_pos h]
      refine Prod.ext rfl ?_
      simp only [List.length_cons]
      omega
    · rw [listLoop_cons, if_neg h, List.takeWhile_cons_of_neg h]
      simp

theorem paraLoop_spec (ls : List Line) :
    ∀ i, paraLoop i ls =
      (ls.takeWhile (fun l => ! paraStop l),
        i + (ls.takeWhile (fun l => ! paraStop l)).length) := by
  induction ls with
  | nil => intro i; simp [paraLoop]
  | cons l rest ih =>
    intro i
    by_cases h : paraStop l
    · rw [paraLoop_cons, if_pos h, List.takeWhile_cons_of_neg (by simp [h])]
      simp
    · rw [paraLoop_cons, if_neg h, ih (i + 1),
        List.takeWhile_cons_of_pos (by simp [h])]
      refine Prod.ext rfl ?_
      simp only [List.length_cons]
      omega

theorem tableLoop_spec (ls : List Line) :
    ∀ i, tableLoop i ls =
      (ls.take (ls.findIdx tableEndMatch + 1),
        i + min (ls.findIdx tableEndMatch) ls.length) := by
  induction ls with
  | nil => intro i; simp [tableLoop]
  | cons l rest ih =>
    intro i
    by_cases h : tableEndMatch l
    · rw [tableLoop_cons, if_pos h, List.findIdx_cons]
      simp [h]
    · rw [tableLoop_cons, if_neg h, ih (i + 1), List.findIdx_cons]
      simp only [h, cond_false]
      refine Prod.ext ?_ ?_
      · simp
      · simp only [List.length_cons]
        omega

/-- C3 counterexample: on the single-line list input `["* a"]` the list
extractor consumes exactly line 0 (the returned content is that whole
line) yet returns 0 — the index OF the last consumed line — where
exclusive-end semantics would demand 1. -/
theorem extractor_exclusive_end_counterexample :
    (extract_list [('*' :: ' ' :: ['a'])] 0).1 = joinNL [('*' :: ' ' :: ['a'])] ∧
    ¬ (extract_list [('*' :: ' ' :: ['a'])] 0).2 = (0 : Int) + 1 := by decide

/-- C3 amended: the list and paragraph extractors return the index of the
LAST consumed line (start + run − 1, which is start − 1 when nothing is
consumed), i.e. one less than the exclusive end; the table extractor
returns the index of the closing line when one exists after the start
line, and `len(lines)` when input ends without one.  In all cases the
content is the newline-join of exactly the consumed lines. -/
theorem extractor_end_semantics (lines : List Line) (start : Nat) :
    ((extract_list lines start).1 =
        joinNL ((lines.drop start).takeWhile listItemMatch) ∧
      (extract_list lines start).2 =
        (start : Int) + ((lines.drop start).takeWhile listItemMatch).length - 1) ∧
    ((extract_paragraph lines start).1 =
        joinNL ((lines.drop start).takeWhile (fun l => ! paraStop l)) ∧
      (extract_paragraph lines start).2 =
        (start : Int) +
          ((lines.drop start).takeWhile (fun l => ! paraStop l)).length - 1) ∧
    ((extract_table lines start).1 =
        joinNL (lines.getD start [] ::
          (lines.drop (start + 1)).take
            ((lines.drop (start + 1)).findIdx tableEndMatch + 1)) ∧
      (extract_table lines start).2 =
        start + 1 + min ((lines.drop (start + 1)).findIdx tableEndMatch)
          (lines.drop (start + 1)).length) := by
  refine ⟨⟨?_, ?_⟩, ⟨?_, ?_⟩, ⟨?_, ?_⟩⟩
  · rw [extract_list, listLoop_spec]
  · rw [extract_list, listLoop_spec]
    simp
  · rw [extract_paragraph, paraLoop_spec]
  · rw [extract_paragraph, paraLoop_spec]
    simp
  · rw [extract_table, tableLoop_spec]
  · rw [extract_table, tableLoop_spec]

/-! ### Field count of the infobox field parser (C4). -/

/-- Written from the claim's words: a single physical `| key = value`
line whose value is non-empty after trimming — the line begins with
`|`, has at least one character between the `|` and the first `=`, and
the rest of the line after that `=` trims to non-empty. -/
def qualLine (l : Line) : Bool :=
  match l with
  | '|' :: rest =>
    let a := rest.takeWhile (fun c => ¬ c = '=')
    decide (1 ≤ a.length ∧ a.length < rest.length ∧
      ¬ pyStrip (rest.drop (a.length + 1)) = [])
  | _ => false

/-- Written from the claim's words (strict reading): the number of
distinct qualifying lines of the span. -/
def specDistinctQualLines (content : List Char) : Nat :=
  ((splitNL content).filter qualLine).dedup.length

/-- The qualifying key/value pairs of the span, in order: the matches
of the field pattern over the whole span whose value is non-empty after
trimming. -/
def qualPairs (content : List Char) : List (Line × Line) :=
  (fieldScan content).filter (fun p => ¬ p.2 = [])

/-- Written from the claim's amended words: the number of distinct field
names among the qualifying matches. -/
def specDistinctKeys (content : List Char) : Nat :=
  ((qualPairs content).map Prod.fst).dedup.length

/-- Skipping whitespace never leaves more following lines than it was
given. -/
theorem skipWs_lines_le : ∀ (ls : List Line) (l : Line),
    (skipWs l ls).2.1.length ≤ ls.length
  | [], _ => by simp [skipWs]
  | next :: more, l => by
    rw [skipWs]
    dsimp only
    split
    · simpa using Nat.le_succ_of_le (skipWs_lines_le more next)
    · simp

/-- A successful `matchField` returns a suffix of the following lines:
the line count never grows. -/
theorem matchField_lines_le (s : Line) (rest : List Line)
    (nm v : Line) (rem : List Line)
    (h : matchField s rest = some (nm, v, rem)) : rem.length ≤ rest.length := by
  rw [matchField] at h
  dsimp only at h
  split_ifs at h
  · simp only [Option.some.injEq, Prod.mk.injEq] at h
    obtain ⟨-, -, hrem⟩ := h
    subst hrem
    exact le_trans (skipWs_lines_le _ _)
      (le_trans (skipWs_lines_le _ _) (skipWs_lines_le _ _))
  · simp only [Option.some.injEq, Prod.mk.injEq] at h
    obtain ⟨-, -, hrem⟩ := h
    subst hrem
    exact le_trans (skipWs_lines_le _ _) (skipWs_lines_le _ _)

/-- Unfolding equation for the scan on a non-empty line list. -/
theorem fieldScanAux_cons (fuel : Nat) (l : Line) (rest : List Line) :
    fieldScanAux (fuel + 1) (l :: rest) =
      if l.take 1 = ['|'] then
        match matchField (l.drop 1) rest with
        | some (nm, v, remaining) => (nm, v) :: fieldScanAux fuel remaining
        | none => fieldScanAux fuel rest
      else fieldScanAux fuel rest := rfl

/-- Any fuel of at least the number of lines gives the same scan: the
fuel `lines.length` used by `fieldScan` is sufficient, so the fueled
driver is not a truncation of `finditer`. -/
theorem fieldScanAux_fuel_stable :
    ∀ (f1 f2 : Nat) (ls : List Line), ls.length ≤ f1 → ls.length ≤ f2 →
      fieldScanAux f1 ls = fieldScanAux f2 ls := by
  intro f1
  induction f1 with
  | zero =>
    intro f2 ls h1 _
    have hnil : ls = [] := List.eq_nil_of_length_eq_zero (Nat.le_zero.mp h1)
    subst hnil
    cases f2 <;> rfl
  | succ a ih =>
    intro f2 ls h1 h2
    cases ls with
    | nil => cases f2 <;> rfl
    | cons l rest =>
      cases f2 with
      | zero => simp at h2
      | succ b =>
        have ha : rest.length ≤ a := by simpa using h1
        have hb : rest.length ≤ b := by simpa using h2
        rw [fieldScanAux_cons, fieldScanAux_cons]
        by_cases hl : l.take 1 = ['|']
        · rw [if_pos hl, if_pos hl]
          cases hm : matchField (l.drop 1) rest with
          | none => exact ih b rest ha hb
          | some x =>
            obtain ⟨nm, v, remaining⟩ := x
            have hr := matchField_lines_le (l.drop 1) rest nm v remaining hm
            dsimp only
            rw [ih b remaining (le_trans hr ha) (le_trans hr hb)]
        · rw [if_neg hl, if_neg hl]
          exact ih b rest ha hb

theorem dictInsert_keys (d : List (Line × Line)) (k v : Line) :
    (dictInsert d k v).map Prod.fst =
      if d.any (fun p => p.1 = k) then d.map Prod.fst
      else d.map Prod.fst ++ [k] := by
  rw [dictInsert]
  split
  · rw [List.map_map]
    refine List.map_congr_left ?_
    intro p _
    by_cases hp : p.1 = k <;> simp [hp]
  · simp

theorem dictInsert_length (d : List (Line × Line)) (k v : Line) :
    (dictInsert d k v).length =
      if d.any (fun p => p.1 = k) then d.length else d.length + 1 := by
  rw [dictInsert]
  split <;> simp

theorem any_key_iff (d : List (Line × Line)) (k : Line) :
    d.any (fun p => p.1 = k) = true ↔ k ∈ d.map Prod.fst := by
  simp [List.any_eq_true, List.mem_map]

theorem dedup_length_concat (l : List Line) (a : Line) :
    (l ++ [a]).dedup.length =
      if a ∈ l then l.dedup.length else l.dedup.length + 1 := by
  rw [← List.card_toFinset, ← List.card_toFinset, List.toFinset_append]
  have h1 : (l.toFinset ∪ [a].toFinset) = insert a l.toFinset := by
    simp [Finset.union_comm, Finset.insert_eq]
  rw [h1]
  by_cases h : a ∈ l
  · rw [if_pos h, Finset.insert_eq_self.mpr (List.mem_toFinset.mpr h)]
  · rw [if_neg h, Finset.card_insert_of_not_mem (fun hc => h (List.mem_toFinset.mp hc))]

theorem foldl_dictInsert_keys_mem (ps : List (Line × Line)) :
    ∀ k, (k ∈ (ps.foldl (fun d p => dictInsert d p.1 p.2)
        ([] : List (Line × Line))).map Prod.fst) ↔ k ∈ ps.map Prod.fst := by
  induction ps using List.reverseRecOn with
  | nil => simp
  | append_singleton ps p ih =>
    intro k
    rw [List.foldl_append, List.foldl_cons, List.foldl_nil, dictInsert_keys]
    by_cases h : ((ps.foldl (fun d p => dictInsert d p.1 p.2)
        ([] : List (Line × Line))).any (fun q => q.1 = p.1)) = true
    · rw [if_pos h]
      have hp1 : p.1 ∈ ps.map Prod.fst := (ih p.1).mp ((any_key_iff _ _).mp h)
      rw [ih k]
      simp only [List.map_append, List.map_cons, List.map_nil, List.mem_append,
        List.mem_singleton]
      constructor
      · exact fun hk => Or.inl hk
      · rintro (hk | rfl)
        · exact hk
        · exact hp1
    · rw [if_neg h]
      simp only [List.mem_append, List.mem_singleton, ih k, List.map_append,
        List.map_cons, List.map_nil]

theorem foldl_dictInsert_length (ps : List (Line × Line)) :
    (ps.foldl (fun d p => dictInsert d p.1 p.2)
        ([] : List (Line × Line))).length = (ps.map Prod.fst).dedup.length := by
  induction ps using List.reverseRecOn with
  | nil => rfl
  | append_singleton ps p ih =>
    rw [List.foldl_append, List.foldl_cons, List.foldl_nil, dictInsert_length,
      List.map_append, List.map_cons, List.map_nil, dedup_length_concat]
    by_cases h : ((ps.foldl (fun d p => dictInsert d p.1 p.2)
        ([] : List (Line × Line))).any (fun q => q.1 = p.1)) = true
    · rw [if_pos h, ih,
        if_pos ((foldl_dictInsert_keys_mem ps p.1).mp ((any_key_iff _ _).mp h))]
    · rw [if_neg h, ih, if_neg (fun hc => h ((any_key_iff _ _).mpr
        ((foldl_dictInsert_keys_mem ps p.1).mpr hc)))]

/-- C4 counterexample, two independent divergences from the claim's
count of distinct qualifying LINES.  First, the balanced span
`"{{Infobox x\n| a = 1\n| a = 2\n}}"` has two distinct qualifying
`| key = value` lines but the parsed field mapping has size 1, because
the duplicate key overwrites.  Second, the balanced span
`"{{Infobox x\n| a\n= 1\n}}"` has zero qualifying lines (no single line
contains both `|` and `=`), yet the parser extracts the field `a -> 1`,
because the pattern's `\s*` matches newlines and the match spans the two
lines; so the mapping size cannot be a count of lines at all. -/
theorem field_count_distinct_lines_counterexample :
    count2 '{' '{'
        ('{' :: '{' :: "Infobox x".toList ++ '\n' :: "| a = 1".toList ++
          '\n' :: "| a = 2".toList ++ '\n' :: '}' :: ['}']) =
      count2 '}' '}'
        ('{' :: '{' :: "Infobox x".toList ++ '\n' :: "| a = 1".toList ++
          '\n' :: "| a = 2".toList ++ '\n' :: '}' :: ['}']) ∧
    specDistinctQualLines
        ('{' :: '{' :: "Infobox x".toList ++ '\n' :: "| a = 1".toList ++
          '\n' :: "| a = 2".toList ++ '\n' :: '}' :: ['}']) = 2 ∧
    ¬ (parse_infobox_fields
        ('{' :: '{' :: "Infobox x".toList ++ '\n' :: "| a = 1".toList ++
          '\n' :: "| a = 2".toList ++ '\n' :: '}' :: ['}'])).fields.length =
      specDistinctQualLines
        ('{' :: '{' :: "Infobox x".toList ++ '\n' :: "| a = 1".toList ++
          '\n' :: "| a = 2".toList ++ '\n' :: '}' :: ['}']) ∧
    count2 '{' '{'
        ('{' :: '{' :: "Infobox x".toList ++ '\n' :: "| a".toList ++
          '\n' :: "= 1".toList ++ '\n' :: '}' :: ['}']) =
      count2 '}' '}'
        ('{' :: '{' :: "Infobox x".toList ++ '\n' :: "| a".toList ++
          '\n' :: "= 1".toList ++ '\n' :: '}' :: ['}']) ∧
    specDistinctQualLines
        ('{' :: '{' :: "Infobox x".toList ++ '\n' :: "| a".toList ++
          '\n' :: "= 1".toList ++ '\n' :: '}' :: ['}']) = 0 ∧
    (parse_infobox_fields
        ('{' :: '{' :: "Infobox x".toList ++ '\n' :: "| a".toList ++
          '\n' :: "= 1".toList ++ '\n' :: '}' :: ['}'])).fields =
      [("a".toList, "1".toList)] ∧
    ¬ (parse_infobox_fields
        ('{' :: '{' :: "Infobox x".toList ++ '\n' :: "| a".toList ++
          '\n' :: "= 1".toList ++ '\n' :: '}' :: ['}'])).fields.length =
      specDistinctQualLines
        ('{' :: '{' :: "Infobox x".toList ++ '\n' :: "| a".toList ++
          '\n' :: "= 1".toList ++ '\n' :: '}' :: ['}']) := by decide

/-- C4 amended: for every infobox span with balanced double-braces, the
field parser returns a mapping whose size equals the number of DISTINCT
FIELD NAMES among the MATCHES of the `| key = value` pattern over the
span with non-empty trimmed value — a match begins at a line starting
with `|` but may span several lines, because the pattern's whitespace
classes match newlines — and duplicate names collapse onto one entry;
empty-valued fields are dropped. -/
theorem parse_infobox_fields_count (content : List Char)
    (_hbal : count2 '{' '{' content = count2 '}' '}' content) :
    (parse_infobox_fields content).fields.length = specDistinctKeys content := by
  rw [parse_infobox_fields, specDistinctKeys, qualPairs]
  exact foldl_dictInsert_length _

/-- Witness for the amended C4 on a two-field infobox span. -/
theorem parse_infobox_fields_count_witness :
    (parse_infobox_fields
        ('{' :: '{' :: "Infobox x".toList ++ '\n' :: "| a = 1".toList ++
          '\n' :: "| b = 2".toList ++ '\n' :: '}' :: ['}'])).fields.length =
      specDistinctKeys
        ('{' :: '{' :: "Infobox x".toList ++ '\n' :: "| a = 1".toList ++
          '\n' :: "| b = 2".toList ++ '\n' :: '}' :: ['}']) :=
  parse_infobox_fields_count _ (by decide)

/-! ### Dispatch of infobox lines (C5). -/

/-- ASCII lower-casing of `A`–`Z`, as the claim's "case-insensitively". -/
def lowerAZ (c : Char) : Char :=
  if 'A' ≤ c ∧ c ≤ 'Z' then Char.ofNat (c.toNat + 32) else c

/-- Written from the claim's words: the line CONTAINS an opening double
brace whose immediately following identifier begins, case-insensitively,
with "infobox". -/
def claimInfoboxLine : Line → Bool
  | [] => false
  | l@(_ :: rest) =>
    ((['{', '{'].isPrefixOf l) &&
      (((l.drop 2).take 7).map lowerAZ = "infobox".toList)) ||
    claimInfoboxLine rest

/-- C5 counterexample: a line containing `{{Infobox` after a leading
space, and a line starting with `{{INFOBOX`, both satisfy the claim's
premise, yet the dispatcher treats both as paragraph starts — the
compiled pattern is anchored at position 0 (`.match`) and only the first
letter of `infobox` is case-insensitive (`[Ii]nfobox`). -/
theorem infobox_dispatch_counterexample :
    claimInfoboxLine (' ' :: '{' :: '{' :: "Infobox a".toList) = true ∧
    claimInfoboxLine ('{' :: '{' :: "INFOBOX a".toList) = true ∧
    (stepParse [(' ' :: '{' :: '{' :: "Infobox a".toList)] 0).1.map
        Chunk.chunk_type = some ChunkType.paragraph ∧
    (stepParse [('{' :: '{' :: "INFOBOX a".toList)] 0).1.map
        Chunk.chunk_type = some ChunkType.paragraph ∧
    ¬ (stepParse [(' ' :: '{' :: '{' :: "Infobox a".toList)] 0).1.map
        Chunk.chunk_type = some ChunkType.infobox ∧
    ¬ (stepParse [('{' :: '{' :: "INFOBOX a".toList)] 0).1.map
        Chunk.chunk_type = some ChunkType.infobox := by decide

theorem infobox_head_lbrace (c : Char) (rest : List Char)
    (hm : infoboxStartMatch (c :: rest) = true) : c = '{' := by
  simp only [infoboxStartMatch, List.isPrefixOf, Bool.or_eq_true,
    Bool.and_eq_true, beq_iff_eq] at hm
  rcases hm with ⟨h, _⟩ | ⟨h, _⟩ <;> exact h.symm

theorem headingParse_infobox_none (l : Line)
    (hm : infoboxStartMatch l = true) : headingParse l = none := by
  cases l with
  | nil => simp [infoboxStartMatch, List.isPrefixOf] at hm
  | cons c rest =>
    rw [infobox_head_lbrace c rest hm]
    rfl

/-- C5 amended: every line that BEGINS with `{{Infobox` or `{{infobox`
(only the first letter of the identifier is case-insensitive) is
dispatched by `parse_string` as an infobox chunk — ahead of the table and
list rules, which are not consulted for such a line. -/
theorem infobox_dispatch (lines : List Line) (i : Nat)
    (hm : infoboxStartMatch (lines.getD i []) = true) :
    (stepParse lines i).1.map Chunk.chunk_type = some ChunkType.infobox := by
  unfold stepParse
  dsimp only
  rw [headingParse_infobox_none _ hm, if_pos hm]
  rfl

/-- Witness for the amended C5: a line that also matches the generic
template shape is dispatched as an infobox. -/
theorem infobox_dispatch_witness :
    (stepParse [('{' :: '{' :: "Infobox person".toList)] 0).1.map
        Chunk.chunk_type = some ChunkType.infobox :=
  infobox_dispatch [('{' :: '{' :: "Infobox person".toList)] 0 (by decide)

end LL

namespace Engine

open LL (isPySpace trimLeft trimRight pyStrip)

/-! ### Context lookup over residual marker text
(`engine/parse_wiki_markup.py`, `get_element_context`). -/

/-- The regex class `[A-Z]`. -/
def isUpperAZ (c : Char) : Bool := 'A' ≤ c && c ≤ 'Z'

/-- Match of `__[A-Z]+_{re.escape(element_id)}__` at the head of `t`:
after the two underscores the greedy `[A-Z]+` must take the whole
uppercase run (the following character must be `_`, which is not
uppercase), then the id appears literally, then two underscores.  Returns
the match length. -/
def markerLen (eid : List Char) (t : List Char) : Option Nat :=
  match t with
  | a :: b :: rest =>
    if a = '_' ∧ b = '_' then
      let r := (rest.takeWhile isUpperAZ).length
      if 1 ≤ r ∧ (('_' :: eid ++ ['_', '_']).isPrefixOf (rest.drop r)) then
        some (2 + r + 1 + eid.length + 2)
      else none
    else none
  | _ => none

/-- `pattern.search(raw_text)`: the leftmost match's span. -/
def findMarkerAux (eid : List Char) (pos : Nat) : List Char → Option (Nat × Nat)
  | [] => none
  | t@(_ :: rest) =>
    match markerLen eid t with
    | some len => some (pos, pos + len)
    | none => findMarkerAux eid (pos + 1) rest

def findMarker (eid text : List Char) : Option (Nat × Nat) :=
  findMarkerAux eid 0 text

/-- `raw_text[max(0, start - window):start]` (Python slice; truncated
natural subtraction plays the role of `max(0, ...)`). -/
def preWin (text : List Char) (s win : Nat) : List Char :=
  (text.drop (s - win)).take (s - (s - win))

/-- `raw_text[end:min(len, end + window)]`. -/
def postWin (text : List Char) (e win : Nat) : List Char :=
  (text.drop e).take (min text.length (e + win) - e)

/-- `get_element_context(element_id, raw_text, window_size, before, after)`:
`none` models the Python `None` returned when the id's marker is absent;
otherwise the requested parts are concatenated (preceding first) and
stripped. -/
def get_element_context (eid text : List Char) (win : Nat)
    (before after : Bool) : Option (List Char) :=
  match findMarker eid text with
  | none => none
  | some se =>
    some (pyStrip ((if before then preWin text se.1 win else []) ++
      (if after then postWin text se.2 win else [])))

/-- Written from the claim's words: some marker `__<UPPER>_<id>__` occurs
in the text. -/
def hasMarker (eid text : List Char) : Prop :=
  ∃ pre mid post : List Char,
    text = pre ++ ['_', '_'] ++ mid ++ ['_'] ++ eid ++ ['_', '_'] ++ post ∧
    ¬ mid = [] ∧ mid.all isUpperAZ = true

theorem takeWhile_all_append (p : Char → Bool) (mid : List Char) (c : Char)
    (z : List Char) (hall : mid.all p = true) (hc : p c = false) :
    (mid ++ c :: z).takeWhile p = mid := by
  induction mid with
  | nil => simp [List.takeWhile_cons, hc]
  | cons x xs ih =>
    simp only [List.all_cons, Bool.and_eq_true] at hall
    simp [List.takeWhile_cons, hall.1, ih hall.2]

theorem drop_takeWhile_length (p : Char → Bool) (l : List Char) :
    l.drop (l.takeWhile p).length = l.dropWhile p := by
  induction l with
  | nil => rfl
  | cons c t ih =>
    by_cases h : p c <;>
      simp [List.takeWhile_cons, List.dropWhile_cons, h, ih]

/-- A marker matches at the head of `t` iff `t` decomposes as the claim
describes. -/
theorem markerLen_isSome_iff (eid t : List Char) :
    (markerLen eid t).isSome = true ↔
      ∃ mid post : List Char,
        t = ['_', '_'] ++ mid ++ ['_'] ++ eid ++ ['_', '_'] ++ post ∧
        ¬ mid = [] ∧ mid.all isUpperAZ = true := by
  constructor
  · intro h
    cases t with
    | nil => exact absurd h (by rw [show markerLen eid [] = none from rfl]; simp)
    | cons a t1 =>
      cases t1 with
      | nil => exact absurd h (by rw [show markerLen eid [a] = none from rfl]; simp)
      | cons b rest =>
        rw [markerLen] at h
        by_cases hab : a = '_' ∧ b = '_'
        · rw [if_pos hab] at h
          obtain ⟨ha, hb⟩ := hab
          subst ha
          subst hb
          dsimp only at h
          split at h
          · rename_i hcond
            obtain ⟨hr, hpre⟩ := hcond
            obtain ⟨tail, htail⟩ :=
              (List.isPrefixOf_iff_prefix.mp hpre : _ <+: _)
            have hdrop : rest.drop (rest.takeWhile isUpperAZ).length =
                rest.dropWhile isUpperAZ := drop_takeWhile_length isUpperAZ rest
            have hrest : rest = rest.takeWhile isUpperAZ ++
                (('_' :: eid ++ ['_', '_']) ++ tail) := by
              conv_lhs => rw [← List.takeWhile_append_dropWhile (p := isUpperAZ)
                (l := rest)]
              rw [← hdrop, ← htail]
            refine ⟨rest.takeWhile isUpperAZ, tail, ?_, ?_, ?_⟩
            · conv_lhs => rw [hrest]
              simp [List.append_assoc]
            · intro hnil
              rw [hnil] at hr
              simp at hr
            · rw [List.all_eq_true]
              intro x hx
              exact List.mem_takeWhile_imp hx
          · simp at h
        · rw [if_neg hab] at h
          simp at h
  · rintro ⟨mid, post, rfl, hne, hall⟩
    have hmid : ((mid ++ '_' :: (eid ++ '_' :: '_' :: post)).takeWhile isUpperAZ) = mid :=
      takeWhile_all_append _ _ _ _ hall rfl
    rw [show (['_', '_'] ++ mid ++ ['_'] ++ eid ++ ['_', '_'] ++ post : List Char) =
      '_' :: '_' :: (mid ++ '_' :: (eid ++ '_' :: '_' :: post)) by simp]
    rw [markerLen]
    rw [if_pos ⟨rfl, rfl⟩]
    dsimp only
    simp only [hmid]
    rw [if_pos ?_]
    · rfl
    constructor
    · have := List.length_pos.mpr hne
      omega
    · have hdl : (mid ++ '_' :: (eid ++ '_' :: '_' :: post)).drop mid.length =
          '_' :: (eid ++ '_' :: '_' :: post) := List.drop_left _ _
      rw [hdl]
      apply List.isPrefixOf_iff_prefix.mpr
      have hshape : ('_' :: (eid ++ '_' :: '_' :: post) : List Char) =
          ('_' :: eid ++ ['_', '_']) ++ post := by simp
      rw [hshape]
      exact List.prefix_append _ _

theorem findMarkerAux_none_iff (eid : List Char) (text : List Char) :
    ∀ pos, findMarkerAux eid pos text = none ↔
      ∀ pre s : List Char, text = pre ++ s → markerLen eid s = none := by
  induction text with
  | nil =>
    intro pos
    constructor
    · intro _ pre s hs
      have h2 : pre ++ s = [] := hs.symm
      rw [List.append_eq_nil] at h2
      rw [h2.2]
      rfl
    · intro _
      rfl
  | cons c rest ih =>
    intro pos
    rw [findMarkerAux]
    constructor
    · intro h pre s hs
      cases hml : markerLen eid (c :: rest) with
      | some len => rw [hml] at h; exact absurd h (by simp)
      | none =>
        rw [hml] at h
        cases pre with
        | nil =>
          simp only [List.nil_append] at hs
          rw [← hs]
          exact hml
        | cons x xs =>
          have hx : rest = xs ++ s := by
            simpa using congrArg List.tail hs
          exact ((ih (pos + 1)).mp h) xs s hx
    · intro h
      have hml : markerLen eid (c :: rest) = none := h [] (c :: rest) rfl
      rw [hml]
      refine (ih (pos + 1)).mpr ?_
      intro pre s hs
      exact h (c :: pre) s (by rw [hs]; rfl)

/-- The search fails exactly when no marker for the id occurs. -/
theorem findMarker_none_iff (eid text : List Char) :
    findMarker eid text = none ↔ ¬ hasMarker eid text := by
  rw [findMarker, findMarkerAux_none_iff eid text 0]
  constructor
  · rintro h ⟨pre, mid, post, heq, hne, hall⟩
    have hml : markerLen eid
        (['_', '_'] ++ mid ++ ['_'] ++ eid ++ ['_', '_'] ++ post) = none := by
      refine h pre _ ?_
      rw [heq]
      simp [List.append_assoc]
    have := (markerLen_isSome_iff eid
        (['_', '_'] ++ mid ++ ['_'] ++ eid ++ ['_', '_'] ++ post)).mpr
      ⟨mid, post, rfl, hne, hall⟩
    rw [hml] at this
    simp at this
  · intro h pre s hs
    cases hml : markerLen eid s with
    | none => rfl
    | some len =>
      obtain ⟨mid, post, hdecomp, hne, hall⟩ :=
        (markerLen_isSome_iff eid s).mp (by rw [hml]; rfl)
      exact absurd ⟨pre, mid, post, by rw [hs, hdecomp]; simp [List.append_assoc],
        hne, hall⟩ h

/-- C8: for every element id and residual text in which no marker
`__[A-Z]+_<id>__` occurs, `get_element_context` returns the distinct
not-found outcome `none` (no partial result) — which is never equal to
`some s`, in particular not to the empty string `some []` produced for a
found marker with an empty context window. -/
theorem get_element_context_not_found (eid text : List Char) (win : Nat)
    (before after : Bool) (h : ¬ hasMarker eid text) :
    get_element_context eid text win before after = none ∧
    ∀ s : List Char, ¬ (none : Option (List Char)) = some s := by
  constructor
  · rw [get_element_context, (findMarker_none_iff eid text).mpr h]
  · intro s hs
    exact Option.noConfusion hs

/-- Witness for C8: an id absent from the text yields `none`. -/
theorem get_element_context_not_found_witness :
    get_element_context ['x'] ("hello".toList) 5 true false = none ∧
    ∀ s : List Char, ¬ (none : Option (List Char)) = some s :=
  get_element_context_not_found ['x'] ("hello".toList) 5 true false
    ((findMarker_none_iff ['x'] ("hello".toList)).mp (by decide))

/-- C9 counterexample: on `"a __TABLE_x__ b"` the before-only and
after-only results are `"a"` and `"b"`; concatenated they give `"ab"`,
while the single both-direction call gives `"a  b"` — whitespace at the
junction is kept by the single call but trimmed away by the two separate
calls. -/
theorem context_symmetry_counterexample :
    get_element_context ['x']
        ('a' :: ' ' :: "__TABLE_x__".toList ++ ' ' :: ['b']) 500 true false =
      some ['a'] ∧
    get_element_context ['x']
        ('a' :: ' ' :: "__TABLE_x__".toList ++ ' ' :: ['b']) 500 false true =
      some ['b'] ∧
    get_element_context ['x']
        ('a' :: ' ' :: "__TABLE_x__".toList ++ ' ' :: ['b']) 500 true true =
      some ('a' :: ' ' :: ' ' :: ['b']) ∧
    ¬ ((get_element_context ['x']
          ('a' :: ' ' :: "__TABLE_x__".toList ++ ' ' :: ['b']) 500 true false).getD [] ++
        (get_element_context ['x']
          ('a' :: ' ' :: "__TABLE_x__".toList ++ ' ' :: ['b']) 500 false true).getD [] =
      (get_element_context ['x']
          ('a' :: ' ' :: "__TABLE_x__".toList ++ ' ' :: ['b']) 500 true true).getD []) := by
  decide

/-! Trimming lemmas used for the amended context-symmetry statement. -/

theorem dropWhile_append_of_ne_nil (p : Char → Bool) (l l' : List Char)
    (h : ¬ l.dropWhile p = []) :
    (l ++ l').dropWhile p = l.dropWhile p ++ l' := by
  induction l with
  | nil => exact absurd rfl h
  | cons c t ih =>
    by_cases hc : p c
    · rw [List.cons_append, List.dropWhile_cons_of_pos hc,
        List.dropWhile_cons_of_pos hc]
      exact ih (by rwa [List.dropWhile_cons_of_pos hc] at h)
    · rw [List.cons_append, List.dropWhile_cons_of_neg hc,
        List.dropWhile_cons_of_neg hc, List.cons_append]

theorem trimLeft_append (l l' : List Char) (h : ¬ LL.trimLeft l = []) :
    LL.trimLeft (l ++ l') = LL.trimLeft l ++ l' :=
  dropWhile_append_of_ne_nil _ _ _ h

theorem trimRight_append (l l' : List Char) (h : ¬ LL.trimRight l' = []) :
    LL.trimRight (l ++ l') = l ++ LL.trimRight l' := by
  have hne : ¬ l'.reverse.dropWhile isPySpace = [] := by
    intro hc
    exact h (by rw [LL.trimRight, hc]; rfl)
  rw [LL.trimRight, List.reverse_append, dropWhile_append_of_ne_nil _ _ _ hne,
    List.reverse_append, List.reverse_reverse, LL.trimRight]

theorem dropWhile_not_all (p : Char → Bool) (l : List Char)
    (h : ¬ l.dropWhile p = []) : ¬ (∀ x ∈ l.dropWhile p, p x = true) := by
  induction l with
  | nil => exact absurd rfl h
  | cons c t ih =>
    by_cases hc : p c
    · rw [List.dropWhile_cons_of_pos hc] at h ⊢
      exact ih h
    · rw [List.dropWhile_cons_of_neg hc]
      intro hall
      exact hc (hall c (List.mem_cons_self c t))

theorem trimRight_eq_nil_iff (l : List Char) :
    LL.trimRight l = [] ↔ ∀ x ∈ l, isPySpace x = true := by
  rw [LL.trimRight, List.reverse_eq_nil_iff, List.dropWhile_eq_nil_iff]
  constructor
  · intro h x hx
    exact h x (List.mem_reverse.mpr hx)
  · intro h x hx
    exact h x (List.mem_reverse.mp hx)

theorem trimLeft_eq_nil_iff (l : List Char) :
    LL.trimLeft l = [] ↔ ∀ x ∈ l, isPySpace x = true := by
  rw [LL.trimLeft, List.dropWhile_eq_nil_iff]

/-- Strip distributes over an append whose junction carries no
whitespace. -/
theorem pyStrip_append (P F : List Char) (hP : LL.trimRight P = P)
    (hF : LL.trimLeft F = F) :
    pyStrip (P ++ F) = pyStrip P ++ pyStrip F := by
  by_cases hP0 : P = []
  · subst hP0
    simp [pyStrip, LL.trimLeft, LL.trimRight]
  by_cases hF0 : F = []
  · subst hF0
    simp [pyStrip, LL.trimLeft, LL.trimRight]
  have hPnotall : ¬ (∀ x ∈ P, isPySpace x = true) := by
    intro hall
    exact hP0 (by rw [← hP]; exact (trimRight_eq_nil_iff P).mpr hall)
  have hLP : ¬ LL.trimLeft P = [] := by
    intro hc
    exact hPnotall ((trimLeft_eq_nil_iff P).mp hc)
  have hTRF : ¬ LL.trimRight F = [] := by
    intro hc
    have hallF := (trimRight_eq_nil_iff F).mp hc
    have hfl : LL.trimLeft F = [] := (trimLeft_eq_nil_iff F).mpr hallF
    rw [hF] at hfl
    exact hF0 hfl
  have hTRD : LL.trimRight (LL.trimLeft P) = LL.trimLeft P := by
    have hsplit : P.takeWhile isPySpace ++ LL.trimLeft P = P :=
      List.takeWhile_append_dropWhile isPySpace P
    have hDnot : ¬ LL.trimRight (LL.trimLeft P) = [] := by
      intro hc
      exact dropWhile_not_all isPySpace P hLP ((trimRight_eq_nil_iff _).mp hc)
    have hPP := hP
    conv_lhs at hPP => rw [← hsplit]
    rw [trimRight_append _ _ hDnot] at hPP
    have hcancel := hPP.trans hsplit.symm
    exact List.append_cancel_left hcancel
  rw [pyStrip, trimLeft_append _ _ hLP, trimRight_append _ _ hTRF,
    pyStrip, pyStrip, hTRD, hF]

/-- C9 amended: when the text contains a marker for the id, the
before-only call returns the trimmed raw preceding window P, the
after-only call the trimmed raw following window F, and the single
both-direction call the trim of `P ++ F`; concatenating the two separate
results equals the single call whenever the raw preceding window has no
trailing whitespace and the raw following window has no leading
whitespace — in general the junction whitespace kept by the single call
is lost by the concatenation. -/
theorem get_element_context_concat (eid text : List Char) (win : Nat)
    (s e : Nat) (hfind : findMarker eid text = some (s, e)) :
    get_element_context eid text win true false =
      some (pyStrip (preWin text s win)) ∧
    get_element_context eid text win false true =
      some (pyStrip (postWin text e win)) ∧
    get_element_context eid text win true true =
      some (pyStrip (preWin text s win ++ postWin text e win)) ∧
    (LL.trimRight (preWin text s win) = preWin text s win →
      LL.trimLeft (postWin text e win) = postWin text e win →
      (get_element_context eid text win true false).getD [] ++
          (get_element_context eid text win false true).getD [] =
        (get_element_context eid text win true true).getD []) := by
  have h1 : get_element_context eid text win true false =
      some (pyStrip (preWin text s win)) := by
    rw [get_element_context, hfind]
    simp
  have h2 : get_element_context eid text win false true =
      some (pyStrip (postWin text e win)) := by
    rw [get_element_context, hfind]
    simp
  have h3 : get_element_context eid text win true true =
      some (pyStrip (preWin text s win ++ postWin text e win)) := by
    rw [get_element_context, hfind]
    simp
  refine ⟨h1, h2, h3, fun hP hF => ?_⟩
  rw [h1, h2, h3, Option.getD_some, Option.getD_some, Option.getD_some,
    pyStrip_append _ _ hP hF]

/-- Witness for the amended C9 on `"ab__TABLE_q__cd"` (no whitespace at
the junction, so the two separate calls concatenate to the single one). -/
theorem get_element_context_concat_witness :
    (get_element_context ['q'] ("ab__TABLE_q__cd".toList) 500 true false).getD [] ++
        (get_element_context ['q'] ("ab__TABLE_q__cd".toList) 500 false true).getD [] =
      (get_element_context ['q'] ("ab__TABLE_q__cd".toList) 500 true true).getD [] :=
  (get_element_context_concat ['q'] ("ab__TABLE_q__cd".toList) 500 2 13
    (by decide)).2.2.2 (by decide) (by decide)


/-! ### Element extraction & placeholder substitution
(`engine/parse_wiki_markup.py`, `parse_wiki_markup`). -/

/-- Modelled from the spec: the wikitext AST produced by the external
`wikitextparser` library (`wtp.parse`), which is not part of this
repository's sources.  A parsed document is an ordered sequence of
structural nodes — plain text, a template (name plus named arguments), a
table (raw source), or a list (raw source plus raw item strings) — per
spec §4.5. -/
inductive WNode where
  | text : List Char → WNode
  | template : List Char → List (List Char × List Char) → WNode
  | table : List Char → WNode
  | list : List Char → List (List Char) → WNode
deriving Repr, DecidableEq

/-- Modelled from the spec: `plain_text()` flattening of markup-free text
returns the text unchanged; the markup-stripping of the external library
is not exercised by the claims, whose inputs are already plain. -/
def plainText (t : List Char) : List Char := t

/-- `t.name.strip().lower().startswith("infobox")`. -/
def isInfoboxTemplate (name : List Char) : Bool :=
  ("infobox".toList).isPrefixOf ((pyStrip name).map LL.lowerAZ)

/-- `lst.string.strip().startswith('*')`. -/
def startsWithStar : List Char → Bool
  | '*' :: _ => true
  | _ => false

/-- The infobox data dict:
`{param.name.strip(): param.value.strip()}` plus
`data['_template_name'] = template.name.strip()`. -/
def infoboxData (name : List Char) (args : List (List Char × List Char)) :
    List (List Char × List Char) :=
  LL.dictInsert
    (args.foldl (fun d p => LL.dictInsert d (pyStrip p.1) (pyStrip p.2)) [])
    ("_template_name".toList) (pyStrip name)

/-- Pass 1: replace each infobox template with `__INFOBOX_<id>__` and
register its serialized data; ids are drawn from `gen` at a running
counter. -/
def infoboxPass (gen : Nat → List Char) :
    List WNode → Nat →
      (List WNode × List (List Char × List (List Char × List Char)) × Nat)
  | [], n => ([], [], n)
  | node :: rest, n =>
    match node with
    | .template name args =>
      if isInfoboxTemplate name then
        let uid := gen n
        let r := infoboxPass gen rest (n + 1)
        (.text ('_' :: '_' :: "INFOBOX".toList ++ '_' :: uid ++ ['_', '_']) :: r.1,
          (uid, infoboxData name args) :: r.2.1, r.2.2)
      else
        let r := infoboxPass gen rest n
        (node :: r.1, r.2.1, r.2.2)
    | _ =>
      let r := infoboxPass gen rest n
      (node :: r.1, r.2.1, r.2.2)

/-- Pass 2: replace every table with `__TABLE_<id>__` and register its
raw source. -/
def tablePass (gen : Nat → List Char) :
    List WNode → Nat → (List WNode × List (List Char × List Char) × Nat)
  | [], n => ([], [], n)
  | node :: rest, n =>
    match node with
    | .table str =>
      let uid := gen n
      let r := tablePass gen rest (n + 1)
      (.text ('_' :: '_' :: "TABLE".toList ++ '_' :: uid ++ ['_', '_']) :: r.1,
        (uid, str) :: r.2.1, r.2.2)
    | _ =>
      let r := tablePass gen rest n
      (node :: r.1, r.2.1, r.2.2)

/-- The non-empty plain-text items of a list
(`wtp.parse(item).plain_text().strip()`, empties skipped). -/
def listGroup (items : List (List Char)) : List (List Char) :=
  items.filterMap (fun it =>
    if pyStrip (plainText it) = [] then none else some (pyStrip (plainText it)))

/-- Pass 3: a list whose trimmed source starts with `*` and whose items
yield a non-empty group is replaced with `__LIST_<id>__` and registered; a
bullet list with an empty group is left in place; any other list is
replaced with empty text. -/
def listPass (gen : Nat → List Char) :
    List WNode → Nat →
      (List WNode × List (List Char × List (List Char)) × Nat)
  | [], n => ([], [], n)
  | node :: rest, n =>
    match node with
    | .list str items =>
      if startsWithStar (pyStrip str) then
        if ¬ listGroup items = [] then
          let uid := gen n
          let r := listPass gen rest (n + 1)
          (.text ('_' :: '_' :: "LIST".toList ++ '_' :: uid ++ ['_', '_']) :: r.1,
            (uid, listGroup items) :: r.2.1, r.2.2)
        else
          let r := listPass gen rest n
          (node :: r.1, r.2.1, r.2.2)
      else
        let r := listPass gen rest n
        (.text [] :: r.1, r.2.1, r.2.2)
    | _ =>
      let r := listPass gen rest n
      (node :: r.1, r.2.1, r.2.2)

/-- Modelled from the spec: plain-text flattening of the substituted
tree — text nodes keep their text (markers survive verbatim), unreplaced
template and table nodes flatten to nothing, and a remaining list node
flattens to its items' plain text joined by newlines. -/
def nodePlain : WNode → List Char
  | .text t => plainText t
  | .template _ _ => []
  | .table _ => []
  | .list _ items => LL.joinNL (items.map plainText)

structure PResult where
  tables : List (List Char × List Char)
  bullets : List (List Char × List (List Char))
  infoboxes : List (List Char × List (List Char × List Char))
  raw_text : List Char
deriving Repr, DecidableEq

/-- `parse_wiki_markup(wiki_text)` over the modelled parse tree `doc`,
with `gen` supplying the fresh ids: extract infoboxes, then tables, then
qualifying bullet lists, and flatten the substituted tree to the residual
plain text, stripped. -/
def parse_wiki_markup (doc : List WNode) (gen : Nat → List Char) : PResult :=
  let p1 := infoboxPass gen doc 0
  let p2 := tablePass gen p1.1 p1.2.2
  let p3 := listPass gen p2.1 p2.2.2
  { tables := p2.2.1
    bullets := p3.2.1
    infoboxes := p1.2.1
    raw_text := pyStrip (List.flatten (p3.1.map nodePlain)) }


theorem trimRight_concat_nonspace (l : List Char) (c : Char)
    (hc : isPySpace c = false) : LL.trimRight (l ++ [c]) = l ++ [c] := by
  rw [LL.trimRight, List.reverse_append]
  simp only [List.reverse_singleton, List.singleton_append]
  rw [List.dropWhile_cons_of_neg (by simp [hc])]
  rw [List.reverse_cons, List.reverse_reverse]

/-- A string that starts and ends with a non-whitespace character is
unchanged by stripping (markers are of this shape). -/
theorem pyStrip_ends_nonspace (c : Char) (mid : List Char) (d : Char)
    (hc : isPySpace c = false) (hd : isPySpace d = false) :
    pyStrip (c :: (mid ++ [d])) = c :: (mid ++ [d]) := by
  rw [pyStrip, LL.trimLeft, List.dropWhile_cons_of_neg (by simp [hc])]
  rw [show (c :: (mid ++ [d]) : List Char) = (c :: mid) ++ [d] by simp]
  rw [trimRight_concat_nonspace _ _ hd]

/-- Behaviour of the extraction pass on a single-list document. -/
theorem parse_single_list (gen : Nat → List Char) (str : List Char)
    (items : List (List Char)) :
    parse_wiki_markup [WNode.list str items] gen =
      if startsWithStar (pyStrip str) = true then
        if listGroup items = [] then
          { tables := [], bullets := [], infoboxes := [],
            raw_text := pyStrip (LL.joinNL (items.map plainText)) }
        else
          { tables := [], bullets := [(gen 0, listGroup items)], infoboxes := [],
            raw_text :=
              pyStrip ('_' :: '_' :: "LIST".toList ++ '_' :: gen 0 ++ ['_', '_']) }
      else
        { tables := [], bullets := [], infoboxes := [], raw_text := [] } := by
  by_cases hs : startsWithStar (pyStrip str) = true
  · by_cases hg : listGroup items = []
    · simp [parse_wiki_markup, infoboxPass, tablePass, listPass, nodePlain,
        plainText, hs, hg]
    · simp [parse_wiki_markup, infoboxPass, tablePass, listPass, nodePlain,
        plainText, hs, hg]
  · have hps : pyStrip ([] : List Char) = [] := rfl
    simp [parse_wiki_markup, infoboxPass, tablePass, listPass, nodePlain,
      plainText, hs, hps]

/-- C6 counterexample: a bullet list whose only item strips to nothing —
its trimmed source starts with `*`, yet no list-group element is
registered (the empty group is skipped), so "kept iff the trimmed source
starts with `*`" fails in the right-to-left direction. -/
theorem list_kept_iff_counterexample :
    startsWithStar (pyStrip ("* ".toList)) = true ∧
    (parse_wiki_markup [WNode.list ("* ".toList) [" ".toList]]
      (fun _ => ['i', 'd'])).bullets = [] := by decide

/-- C6 amended: a numbered list yields no element and empty residual
text; a bulleted list with two items yields one list-group element with
the two plain-text items and a lone marker as residual text; in general a
single list node is kept (yields an element) iff its raw source, trimmed,
starts with `*` AND at least one of its items flattens to non-empty plain
text. -/
theorem extraction_list_scenarios (gen : Nat → List Char) :
    (parse_wiki_markup
        [WNode.list ("# item1\n# item2".toList)
          [" item1".toList, " item2".toList]] gen) =
      { tables := [], bullets := [], infoboxes := [], raw_text := [] } ∧
    (parse_wiki_markup
        [WNode.list ("* item1\n* item2".toList)
          [" item1".toList, " item2".toList]] gen).bullets =
      [(gen 0, ["item1".toList, "item2".toList])] ∧
    (parse_wiki_markup
        [WNode.list ("* item1\n* item2".toList)
          [" item1".toList, " item2".toList]] gen).raw_text =
      '_' :: '_' :: "LIST".toList ++ '_' :: gen 0 ++ ['_', '_'] ∧
    (∀ str items,
      (¬ (parse_wiki_markup [WNode.list str items] gen).bullets = []) ↔
        (startsWithStar (pyStrip str) = true ∧ ¬ listGroup items = [])) := by
  refine ⟨?_, ?_, ?_, ?_⟩
  · rw [parse_single_list, if_neg (by decide)]
  · rw [parse_single_list, if_pos (by decide), if_neg (by decide)]
    rw [show listGroup [" item1".toList, " item2".toList] =
      ["item1".toList, "item2".toList] from by decide]
  · rw [parse_single_list, if_pos (by decide), if_neg (by decide)]
    show pyStrip ('_' :: '_' :: "LIST".toList ++ '_' :: gen 0 ++ ['_', '_']) = _
    rw [show ('_' :: '_' :: "LIST".toList ++ '_' :: gen 0 ++ ['_', '_'] : List Char) =
      '_' :: (('_' :: "LIST".toList ++ '_' :: gen 0 ++ ['_']) ++ ['_']) by simp]
    rw [pyStrip_ends_nonspace '_' _ '_' (by decide) (by decide)]
  · intro str items
    rw [parse_single_list]
    by_cases hs : startsWithStar (pyStrip str) = true
    · by_cases hg : listGroup items = []
      · rw [if_pos hs, if_pos hg]
        simp [hs, hg]
      · rw [if_pos hs, if_neg hg]
        simp [hs, hg]
    · rw [if_neg hs]
      simp [hs]

/-- C7 counterexample: on the scenario input the single registered
infobox's data has three entries — `name`, `occupation` and the reserved
`_template_name` (recording `"Infobox person"`) — not exactly the two
fields the claim lists, and no recorded value equals `"person"`. -/
theorem infobox_fields_exact_counterexample :
    (parse_wiki_markup
        [WNode.template ("Infobox person\n".toList)
          [(" name ".toList, " John Doe\n".toList),
            (" occupation ".toList, " Engineer\n".toList)],
          WNode.text ('\n' :: '\n' :: ("Hello".toList ++ ['.']))]
        (fun _ => ['i', 'd'])).infoboxes.map (fun q => q.2) =
      [[("name".toList, "John Doe".toList),
        ("occupation".toList, "Engineer".toList),
        ("_template_name".toList, "Infobox person".toList)]] ∧
    ¬ (parse_wiki_markup
        [WNode.template ("Infobox person\n".toList)
          [(" name ".toList, " John Doe\n".toList),
            (" occupation ".toList, " Engineer\n".toList)],
          WNode.text ('\n' :: '\n' :: ("Hello".toList ++ ['.']))]
        (fun _ => ['i', 'd'])).infoboxes.map (fun q => q.2) =
      [[("name".toList, "John Doe".toList),
        ("occupation".toList, "Engineer".toList)]] ∧
    ((parse_wiki_markup
        [WNode.template ("Infobox person\n".toList)
          [(" name ".toList, " John Doe\n".toList),
            (" occupation ".toList, " Engineer\n".toList)],
          WNode.text ('\n' :: '\n' :: ("Hello".toList ++ ['.']))]
        (fun _ => ['i', 'd'])).infoboxes.map (fun q => q.2)).all
      (fun d => d.all (fun p => ¬ p.2 = "person".toList)) = true := by decide

/-- C7 amended: the scenario input yields exactly one infobox element
whose data maps `name` to `"John Doe"` and `occupation` to `"Engineer"`,
plus the reserved `_template_name` entry recording `"Infobox person"`
(the declared type `"person"` appears only inside that template name);
the residual text is `__INFOBOX_<id>__\n\nHello.` for the element's
registered id. -/
theorem extraction_infobox_scenario (gen : Nat → List Char) :
    (parse_wiki_markup
        [WNode.template ("Infobox person\n".toList)
          [(" name ".toList, " John Doe\n".toList),
            (" occupation ".toList, " Engineer\n".toList)],
          WNode.text ('\n' :: '\n' :: ("Hello".toList ++ ['.']))] gen).infoboxes =
      [(gen 0, [("name".toList, "John Doe".toList),
        ("occupation".toList, "Engineer".toList),
        ("_template_name".toList, "Infobox person".toList)])] ∧
    (parse_wiki_markup
        [WNode.template ("Infobox person\n".toList)
          [(" name ".toList, " John Doe\n".toList),
            (" occupation ".toList, " Engineer\n".toList)],
          WNode.text ('\n' :: '\n' :: ("Hello".toList ++ ['.']))] gen).tables = [] ∧
    (parse_wiki_markup
        [WNode.template ("Infobox person\n".toList)
          [(" name ".toList, " John Doe\n".toList),
            (" occupation ".toList, " Engineer\n".toList)],
          WNode.text ('\n' :: '\n' :: ("Hello".toList ++ ['.']))] gen).bullets = [] ∧
    (parse_wiki_markup
        [WNode.template ("Infobox person\n".toList)
          [(" name ".toList, " John Doe\n".toList),
            (" occupation ".toList, " Engineer\n".toList)],
          WNode.text ('\n' :: '\n' :: ("Hello".toList ++ ['.']))] gen).raw_text =
      '_' :: '_' :: "INFOBOX".toList ++ '_' :: gen 0 ++ '_' :: '_' :: '\n' ::
        '\n' :: ("Hello".toList ++ ['.']) := by
  have hik : isInfoboxTemplate ("Infobox person\n".toList) = true := by decide
  have hdata : infoboxData ("Infobox person\n".toList)
      [(" name ".toList, " John Doe\n".toList),
        (" occupation ".toList, " Engineer\n".toList)] =
      [("name".toList, "John Doe".toList),
        ("occupation".toList, "Engineer".toList),
        ("_template_name".toList, "Infobox person".toList)] := by decide
  refine ⟨?_, ?_, ?_, ?_⟩ <;>
    simp only [parse_wiki_markup, infoboxPass, tablePass, listPass, hik,
      if_true, hdata, nodePlain, plainText, List.map_cons, List.map_nil,
      List.flatten_cons, List.flatten_nil, List.append_nil]
  rw [show (('_' :: '_' :: "INFOBOX".toList ++ '_' :: gen 0 ++ ['_', '_']) ++
      ('\n' :: '\n' :: ("Hello".toList ++ ['.'])) : List Char) =
    '_' :: (('_' :: "INFOBOX".toList ++ '_' :: gen 0 ++ '_' :: '_' :: '\n' ::
      '\n' :: "Hello".toList) ++ ['.']) by simp]
  rw [pyStrip_ends_nonspace '_' _ '.' (by decide) (by decide)]
  simp


end Engine

section Scratch

example : LL.splitNL ('a' :: '\n' :: '\n' :: ['b']) = [['a'], [], ['b']] := by decide

example : "ab".toList = ['a', 'b'] := by decide

example : LL.count2 '{' '{' ('{' :: '{' :: ['{']) = 1 := by decide

example : LL.pyStrip (' ' :: 'a' :: [' ']) = ['a'] := by decide

example : LL.joinNL [['a'], ['b']] = ['a', '\n', 'b'] := by rfl

-- heading regex behaviour checks (mirroring the Python regex)
example : LL.headingParse ("== x ==".toList) = some (2, ['x']) := by decide
example : LL.headingParse ("=== a ==".toList) = some (2, ['=', ' ', 'a']) := by decide
example : LL.headingParse ("====".toList) = some (2, []) := by decide
example : LL.headingParse ("= a".toList) = none := by decide
example : LL.headingParse ("==  ==".toList) = some (2, []) := by decide
example : LL.hrMatch ("----  ".toList) = true := by decide
example : LL.hrMatch ("---".toList) = false := by decide
example : LL.infoboxStartMatch ('{' :: '{' :: "Infobox person".toList) = true := by decide
example : LL.infoboxStartMatch (' ' :: '{' :: '{' :: "Infobox person".toList) = false := by decide
example : LL.infoboxStartMatch ('{' :: '{' :: "INFOBOX person".toList) = false := by decide

example :
    LL.extract_list [("* a".toList), ("*b".toList), ("x".toList)] 0 =
      ("* a".toList ++ '\n' :: "*b".toList, (1 : Int)) := by decide

example : (LL.extract_table [("x".toList)] 0).2 = 1 := by decide

example :
    LL.fieldScan ("| name = John".toList) =
      [("name".toList, "John".toList)] := by decide

-- the pattern's whitespace crosses newlines: name and `=` on different lines
example :
    LL.fieldScan ("| a".toList ++ '\n' :: "= 1".toList) =
      [("a".toList, "1".toList)] := by decide

-- a trailing `\s*` also crosses: the value is drawn from the next
-- non-blank line, and the consumed line yields no further match
example :
    LL.fieldScan ("| a =".toList ++ '\n' :: "| b = 2".toList) =
      [("a".toList, "| b = 2".toList)] := by decide

-- no whitespace between `|` and `=` leaves the lazy group nothing to match
example : LL.fieldScan ("|= v".toList) = [] := by decide

-- with whitespace there, backtracking yields an empty (stripped) name
example : LL.fieldScan ("|  = v".toList) = [([], "v".toList)] := by decide

example :
    (LL.parse_infobox_fields
      ('{' :: '{' :: "Infobox person".toList ++ '\n' :: "| a = 1".toList ++
        '\n' :: "| b = ".toList ++ '\n' :: '}' :: ['}'])).fields =
      [("a".toList, "1".toList), ("b".toList, '}' :: ['}'])] := by decide

example :
    (LL.parse_infobox_fields
      ('{' :: '{' :: "Infobox person x".toList)).type = "person x".toList := by decide

example :
    (LL.parseChunks ("Hello".toList ++ '\n' :: '\n' :: "== T ==".toList ++
      '\n' :: "* a".toList)).map LL.Chunk.chunk_type =
      [.paragraph, .heading, .list] := by decide

example :
    (LL.parse_string ("a".toList ++ '\n' :: '\n' :: "b".toList)).nodes =
      [{ chunk := { chunk_type := .paragraph, content := ['a'] }, next := some 1 },
       { chunk := { chunk_type := .paragraph, content := ['b'] }, prev := some 0 }] := by
  decide

example :
    (Engine.parse_wiki_markup
      [Engine.WNode.list ("# item1\n# item2".toList)
        [" item1".toList, " item2".toList]] (fun _ => ['i', 'd'])) =
      { tables := [], bullets := [], infoboxes := [], raw_text := [] } := by decide

example :
    (Engine.parse_wiki_markup
      [Engine.WNode.list ("* item1\n* item2".toList)
        [" item1".toList, " item2".toList]] (fun _ => ['i', 'd'])).bullets =
      [(['i', 'd'], ["item1".toList, "item2".toList])] := by decide

example :
    (Engine.parse_wiki_markup
      [Engine.WNode.list ("* item1\n* item2".toList)
        [" item1".toList, " item2".toList]] (fun _ => ['i', 'd'])).raw_text =
      "__LIST_id__".toList := by decide

end Scratch
